import Mathlib

/-!
systemd-echo: an embedding of `src/main.c`.

The program is a single C file: a configuration loader (`load_conf` with its
string helpers), the start-up half of `main` (socket activation, signal and
watchdog descriptors) and the epoll dispatch loop that echoes datagrams and
stream data.

Conventions of the embedding

* C `int` results of system and library calls are `Int`; every such result is
  an input of the model (the fields of `BootEnv` and `Wake`), so that a theorem
  quantifies over all behaviours of the kernel.
* C strings are `List Char` (the characters before the terminating NUL).
* Heap memory is a map from block numbers to the bytes of a live block;
  `malloc` hands out a block number that was never used before and `free`
  removes the block.  Block `0` is the null pointer.
* Each modelled call is appended to a log of `Call`s, so that statements about
  what the program did (which bytes it wrote, whether `socket` was called) are
  statements about that log.
* Descriptors are `Int` like the C `int`s that hold them; the table `iob` is
  indexed with `fd.toNat`, which is the C index for every descriptor the kernel
  can hand out (those are never negative).
* A failing `write` reports its failure through its return value and `errno`
  (the process is run by init with `SIGPIPE` ignored, so a write to a closed
  peer does not kill it).
-/

namespace SystemdEcho

/-! ## Constants of the platform (Linux, LP64) -/

def EXIT_SUCCESS : Int := 0
def EXIT_FAILURE : Int := 1
def SIGHUP : Nat := 1
def SIGTERM : Nat := 15
def EPOLLIN : Nat := 1
def EPOLLOUT : Nat := 4
def EPOLLERR : Nat := 8
def EPOLLHUP : Nat := 16
def EAGAIN : Int := 11
def EINTR : Int := 4
def SD_LISTEN_FDS_START : Int := 3
/-- Value of `sizeof(struct signalfd_siginfo)`. -/
def SIZEOF_SSI : Int := 128
/-- Value of `sizeof(uint64_t)`. -/
def SIZEOF_U64 : Int := 8
/-- Value of `sizeof(buf)` for `char buf[4096]` in `main`. -/
def BUFSZ : Nat := 4096
def LONG_MAX : Int := 2 ^ 63 - 1
def LONG_MIN : Int := -(2 ^ 63)
def ULLONG_MAX : Nat := 2 ^ 64 - 1

/-- Conversion of a `long` to `int` (two's complement truncation). -/
def to_int (x : Int) : Int := (x + 2 ^ 31) % 2 ^ 32 - 2 ^ 31

/-- Conversion of an `unsigned long long` to `long` (two's complement). -/
def to_long (x : Nat) : Int := ((x : Int) + 2 ^ 63) % 2 ^ 64 - 2 ^ 63

/-- Conversion of a signed value to `size_t`: a negative value wraps around
`2^64` (exact for every value from `-2^64` up to `2^64 - 1`). -/
def to_size_t (x : Int) : Nat := if x < 0 then (x + 2 ^ 64).toNat else x.toNat

/-! ## String helpers and the configuration loader -/

/-- The libc `isspace` in the C locale: space, and the controls 9 to 13. -/
def isspace (c : Char) : Bool :=
  c.toNat = 32 || (9 ≤ c.toNat && c.toNat ≤ 13)

/-- The libc `isdigit`. -/
def isdigit (c : Char) : Bool :=
  48 ≤ c.toNat && c.toNat ≤ 57

/-- Source `str_lstrip`: advance over leading white space. -/
def str_lstrip : List Char → List Char
  | [] => []
  | c :: cs => if isspace c then str_lstrip cs else c :: cs

/-- The pointer scan of `str_rstrip`: how many characters lie at or before `end`
when its loop stops. -/
def str_rstrip_end (str : List Char) : Nat :=
  (str.reverse.dropWhile isspace).length

/-- Source `str_rstrip`: it moves `end` left over trailing white space and then
returns `str`; nothing is stored through `end`, so the string is unchanged. -/
def str_rstrip (str : List Char) : List Char :=
  let _end := str_rstrip_end str
  str

/-- Source `str_strip`. -/
def str_strip (str : List Char) : List Char :=
  str_rstrip (str_lstrip str)

/-- The libc `strchr` followed by `*ptr++ = 0`: the text before the first
occurrence of `c` and the text after it. -/
def strchr_cut (c : Char) : List Char → Option (List Char × List Char)
  | [] => none
  | x :: xs =>
    if x = c then some ([], xs)
    else match strchr_cut c xs with
      | none => none
      | some (a, b) => some (x :: a, b)

/-- Value of the leading decimal digits of a string, continuing from `acc`. -/
def digits_value : List Char → Nat → Nat
  | [], acc => acc
  | c :: cs, acc => if isdigit c then digits_value cs (acc * 10 + (c.toNat - 48)) else acc

/-- The libc `strtol(s, NULL, 10)`: white space, an optional sign, the leading
digits, clamped to the range of `long`. -/
def strtol (s : List Char) : Int :=
  match str_lstrip s with
  | '-' :: cs => max (-(digits_value cs 0 : Int)) LONG_MIN
  | '+' :: cs => min (digits_value cs 0 : Int) LONG_MAX
  | cs => min (digits_value cs 0 : Int) LONG_MAX

/-- The libc `atoi`, as glibc defines it: `(int) strtol(s, NULL, 10)`. -/
def atoi (s : List Char) : Int :=
  to_int (strtol s)

/-- The libc `strtoull(s, NULL, 10)`: white space, an optional sign, the leading
digits, clamped to `ULLONG_MAX`; a minus sign negates modulo `2^64`. -/
def strtoull (s : List Char) : Nat :=
  match str_lstrip s with
  | '-' :: cs =>
    if digits_value cs 0 > ULLONG_MAX then ULLONG_MAX
    else (2 ^ 64 - digits_value cs 0) % 2 ^ 64
  | '+' :: cs => min (digits_value cs 0) ULLONG_MAX
  | cs => min (digits_value cs 0) ULLONG_MAX

/-- What `load_conf` finds on disk: whether `fopen` succeeds, the strings that
the successive `fgets` calls leave in `buf`, and whether the stream ends
cleanly (`!ferror(fh) && feof(fh)`). -/
structure ConfFile where
  fopen_ok : Bool
  lines : List (List Char)
  read_ok : Bool

/-- The `while (fgets(...))` loop of `load_conf`. The result is `true` when the
loop runs to the end of the file and `false` on `goto err2`, together with the
value of the global `backlog`. -/
def load_conf_loop : List (List Char) → Int → Bool × Int
  | [], backlog => (true, backlog)
  | buf :: rest, backlog =>
    let name := str_strip buf
    if name = [] then load_conf_loop rest backlog
    else
      match strchr_cut '=' name with
      | none => (false, backlog)
      | some (name, ptr) =>
        let name := str_rstrip name
        let value := str_lstrip ptr
        if name = "Backlog".toList then
          let backlog := atoi value
          if backlog ≤ 0 then (false, backlog)
          else load_conf_loop rest backlog
        else (false, backlog)

/-- Source `load_conf`: the return value (0 or -1) and the global `backlog`
after the call. -/
def load_conf (f : ConfFile) (backlog : Int) : Int × Int :=
  if f.fopen_ok = false then (-1, backlog)
  else
    match load_conf_loop f.lines backlog with
    | (false, b) => (-1, b)
    | (true, b) => if f.read_ok = false then (-1, b) else (0, b)

/-! ## Data of `main` -/

/-- A byte of network payload. The program never inspects payload bytes, so any
type would do; `Nat` keeps the examples readable. -/
abbrev Byte := Nat

/-- A `char *`: a heap block and an offset into it. Block 0 is the null pointer. -/
structure Ptr where
  blk : Nat
  off : Nat
deriving DecidableEq, Repr

def NULL : Ptr := ⟨0, 0⟩

/-- Source `struct iobuf`. -/
structure iobuf where
  head : Ptr
  data : Ptr
  len : Nat
deriving DecidableEq, Repr

/-- A slot as `memset(..., 0, ...)` leaves it. -/
def iobuf.zero : iobuf := ⟨NULL, NULL, 0⟩

structure timespec where
  tv_sec : Int
  tv_nsec : Int
deriving DecidableEq, Repr

structure itimerspec where
  it_interval : timespec
  it_value : timespec
deriving DecidableEq, Repr

/-- The heap: the contents of every live block. -/
abbrev Heap := Nat → Option (List Byte)

/-- The libc `free`: `free(NULL)` does nothing; any other pointer must be the
start of a live block, which is released. `none` is undefined behaviour. -/
def free (heap : Heap) (p : Ptr) : Option Heap :=
  if p.blk = 0 then some heap
  else if p.off ≠ 0 then none
  else
    match heap p.blk with
    | none => none
    | some _ => some (Function.update heap p.blk none)

/-- The `n` bytes at `p`, as a system call reads them from user memory; `none`
when they do not lie inside a live block. -/
def load (heap : Heap) (p : Ptr) (n : Nat) : Option (List Byte) :=
  match heap p.blk with
  | none => none
  | some b => if p.off + n ≤ b.length then some ((b.drop p.off).take n) else none

/-- The kernel storing the first `n` bytes of `data` at the start of `buf`. -/
def fill (buf : List Byte) (data : List Byte) (n : Nat) : List Byte :=
  data.take n ++ buf.drop n

/-- The calls the program makes that matter to its observable behaviour, with
their arguments and, where the program depends on it, their result. -/
inductive Call
  | epoll_create1 (ret : Int)
  | socket_stream (ret : Int)
  | socket_dgram (ret : Int)
  | setsockopt (fd : Int)
  | bind (fd : Int)
  | listen (fd : Int) (backlog : Int)
  | epoll_add (fd : Int) (events : Nat)
  | epoll_mod (fd : Int) (events : Nat)
  | signalfd (ret : Int)
  | timerfd_create (ret : Int)
  | timerfd_settime (fd : Int) (its : itimerspec)
  | sd_notify (unset_environment : Int) (state : String)
  | epoll_wait (ret : Int)
  | read_signal (ret : Int) (ssi_signo : Nat)
  | read_timer (ret : Int)
  | accept (ret : Int)
  | recvfrom (fd : Int) (ret : Int)
  | sendto (fd : Int) (payload : List Byte) (addr : List Byte) (addrlen : Nat)
  | read (fd : Int) (ret : Int) (got : List Byte)
  | write (fd : Int) (src : List Byte) (ret : Int)
  | realloc (ok : Bool)
  | malloc (size : Int) (blk : Nat)
  | free (p : Ptr)
  | close (fd : Int)
deriving DecidableEq, Repr

/-- The variables of `main` and the file-scope globals that live across
iterations of the main loop, the heap, and the interest list of the epoll
instance (`reg fd` is the event mask `fd` is registered with). -/
structure State where
  epfd : Int
  signal_fd : Int
  listen_fd : Int
  dgram_fd : Int
  timer_fd : Int
  backlog : Int
  buf : List Byte
  iob : List iobuf
  heap : Heap
  brk : Nat
  reg : Int → Option Nat

/-- How a stretch of `main` ends: control stays in the program (`cont`), `main`
returns (`exit`), or the program performs an invalid memory operation
(`fault`: indexing `iob` outside the table, reading or freeing memory that is
not a live block). -/
inductive Outcome
  | cont (s : State)
  | exit (status : Int)
  | fault

/-- Source `close(fd)`: the kernel drops the descriptor from the interest list. -/
def close_fd (s : State) (fd : Int) : State :=
  { s with reg := Function.update s.reg fd none }

/-! ## Start-up -/

/-- Everything the environment decides during start-up. -/
structure BootEnv where
  ppid : Int
  conf : ConfFile
  argc : Int
  epoll_create1 : Int
  sd_listen_fds : Int
  /-- Result of `sd_is_socket_inet(fd, AF_INET6, SOCK_STREAM, 1, 7)`. -/
  is_stream : Int → Int
  /-- Result of `sd_is_socket_inet(fd, AF_INET6, SOCK_DGRAM, -1, 7)`. -/
  is_dgram : Int → Int
  socket_stream : Int
  setsockopt : Int
  bind_stream : Int
  listen : Int
  ctl_listen : Int
  socket_dgram : Int
  bind_dgram : Int
  ctl_dgram : Int
  signalfd : Int
  ctl_signal : Int
  /-- Result of `getenv("WATCHDOG_USEC")`. -/
  watchdog_usec : Option (List Char)
  timerfd_create : Int
  timerfd_settime : Int
  ctl_timer : Int

/-- The body of the `for` loop over the inherited descriptors, run for the
`n` descriptors from `fd` on. `none` is `goto err`; otherwise the values of
`listen_fd` and `dgram_fd` after the loop. -/
def classify_fds (env : BootEnv) : Nat → Int → Int → Int → Option (Int × Int)
  | 0, _, listen_fd, dgram_fd => some (listen_fd, dgram_fd)
  | n + 1, fd, listen_fd, dgram_fd =>
    let retval := env.is_stream fd
    if retval = 0 then
      -- type = SOCK_DGRAM
      let retval := env.is_dgram fd
      if retval = 0 then none
      else if retval < 0 then none
      else if dgram_fd ≥ 0 then none
      else classify_fds env n (fd + 1) listen_fd fd
    else if retval < 0 then none
    else if listen_fd ≥ 0 then none
    else classify_fds env n (fd + 1) fd dgram_fd

/-- The `struct itimerspec` that `main` builds from `W`, the value returned by
`strtoull(getenv("WATCHDOG_USEC"), NULL, 10)`. `usec` is an
`unsigned long long`; `tv_sec` and `tv_nsec` are `long`. -/
def watchdog_its (W : Nat) : itimerspec :=
  let usec := W / 2
  let it_interval : timespec :=
    { tv_sec := to_long (usec / 1000000)
      tv_nsec := to_long ((usec % 1000000) * 1000 % 2 ^ 64) }
  { it_interval := it_interval, it_value := it_interval }

/-- The last part of start-up: the watchdog timer and `sd_notify`, then the
main loop is entered. -/
def boot_watchdog (env : BootEnv) (epfd signal_fd listen_fd dgram_fd backlog : Int)
    (reg : Int → Option Nat) (log : List Call) : Outcome × List Call :=
  let enter (timer_fd : Int) (reg : Int → Option Nat) (log : List Call) : Outcome × List Call :=
    (Outcome.cont
      { epfd := epfd, signal_fd := signal_fd, listen_fd := listen_fd, dgram_fd := dgram_fd,
        timer_fd := timer_fd, backlog := backlog, buf := List.replicate BUFSZ 0, iob := [],
        heap := fun _ => none, brk := 1, reg := reg },
     log ++ [Call.sd_notify (if timer_fd ≥ 0 then 0 else 1) "READY=1"])
  match env.watchdog_usec with
  | none => enter (-1) reg log
  | some str =>
    let timer_fd := env.timerfd_create
    let log := log ++ [Call.timerfd_create timer_fd]
    if timer_fd < 0 then (Outcome.exit EXIT_FAILURE, log)
    else
      let log := log ++ [Call.timerfd_settime timer_fd (watchdog_its (strtoull str))]
      if env.timerfd_settime ≠ 0 then (Outcome.exit EXIT_FAILURE, log)
      else
        let log := log ++ [Call.epoll_add timer_fd EPOLLIN]
        if env.ctl_timer ≠ 0 then (Outcome.exit EXIT_FAILURE, log)
        else enter timer_fd (Function.update reg timer_fd (some EPOLLIN)) log

/-- The middle part of start-up: the datagram socket and the signal descriptor. -/
def boot_dgram (env : BootEnv) (epfd listen_fd dgram_fd backlog : Int)
    (reg : Int → Option Nat) (log : List Call) : Outcome × List Call :=
  let next (dgram_fd : Int) (log : List Call) : Outcome × List Call :=
    let log := log ++ [Call.epoll_add dgram_fd EPOLLIN]
    if env.ctl_dgram ≠ 0 then (Outcome.exit EXIT_FAILURE, log)
    else
      let reg := Function.update reg dgram_fd (some EPOLLIN)
      let signal_fd := env.signalfd
      let log := log ++ [Call.signalfd signal_fd]
      if signal_fd < 0 then (Outcome.exit EXIT_FAILURE, log)
      else
        let log := log ++ [Call.epoll_add signal_fd EPOLLIN]
        if env.ctl_signal ≠ 0 then (Outcome.exit EXIT_FAILURE, log)
        else
          boot_watchdog env epfd signal_fd listen_fd dgram_fd backlog
            (Function.update reg signal_fd (some EPOLLIN)) log
  if dgram_fd < 0 then
    let dgram_fd := env.socket_dgram
    let log := log ++ [Call.socket_dgram dgram_fd]
    if dgram_fd < 0 then (Outcome.exit EXIT_FAILURE, log)
    else
      let log := log ++ [Call.bind dgram_fd]
      if env.bind_dgram ≠ 0 then (Outcome.exit EXIT_FAILURE, log)
      else next dgram_fd log
  else next dgram_fd log

/-- The part of start-up after the inherited descriptors are classified: the
listening socket. -/
def boot_listen (env : BootEnv) (epfd listen_fd dgram_fd backlog : Int)
    (log : List Call) : Outcome × List Call :=
  let next (listen_fd : Int) (log : List Call) : Outcome × List Call :=
    let log := log ++ [Call.epoll_add listen_fd EPOLLIN]
    if env.ctl_listen ≠ 0 then (Outcome.exit EXIT_FAILURE, log)
    else
      boot_dgram env epfd listen_fd dgram_fd backlog
        (Function.update (fun _ => none) listen_fd (some EPOLLIN)) log
  if listen_fd < 0 then
    let listen_fd := env.socket_stream
    let log := log ++ [Call.socket_stream listen_fd]
    if listen_fd < 0 then (Outcome.exit EXIT_FAILURE, log)
    else
      let log := log ++ [Call.setsockopt listen_fd]
      if env.setsockopt ≠ 0 then (Outcome.exit EXIT_FAILURE, log)
      else
        let log := log ++ [Call.bind listen_fd]
        if env.bind_stream ≠ 0 then (Outcome.exit EXIT_FAILURE, log)
        else
          let log := log ++ [Call.listen listen_fd backlog]
          if env.listen ≠ 0 then (Outcome.exit EXIT_FAILURE, log)
          else next listen_fd log
  else next listen_fd log

/-- Source `main` up to the main loop. `cont s` means the loop is entered in
state `s`; `exit` is a return through `err`. The global `backlog` starts at 10. -/
def startup (env : BootEnv) : Outcome × List Call :=
  if env.ppid ≠ 1 then (Outcome.exit EXIT_FAILURE, [])
  else
    let (r, backlog) := load_conf env.conf 10
    if r ≠ 0 then (Outcome.exit EXIT_FAILURE, [])
    else if env.argc ≠ 1 then (Outcome.exit EXIT_FAILURE, [])
    else
      let epfd := env.epoll_create1
      let log := [Call.epoll_create1 epfd]
      if epfd < 0 then (Outcome.exit EXIT_FAILURE, log)
      else
        let n_fds := env.sd_listen_fds
        if n_fds < 0 then (Outcome.exit EXIT_FAILURE, log)
        else if n_fds > 2 then (Outcome.exit EXIT_FAILURE, log)
        else
          match classify_fds env n_fds.toNat SD_LISTEN_FDS_START (-1) (-1) with
          | none => (Outcome.exit EXIT_FAILURE, log)
          | some (listen_fd, dgram_fd) => boot_listen env epfd listen_fd dgram_fd backlog log

/-! ## The main loop -/

/-- Everything the environment decides during one iteration of the main loop:
what `epoll_wait` reports and the result of every call the iteration may make. -/
structure Wake where
  /-- Return value of `epoll_wait`. -/
  n_fds : Int
  /-- The reported `ev.events`. -/
  events : Nat
  /-- The reported `ev.data.fd`. -/
  fd : Int
  /-- Return value of `read(signal_fd, &ssi, sizeof(ssi))`. -/
  sig_read : Int
  ssi_signo : Nat
  /-- The configuration file as `load_conf` finds it on a reload. -/
  conf : ConfFile
  /-- Return value of `listen(listen_fd, backlog)` on a reload. -/
  listen_ret : Int
  /-- Return value of `read(timer_fd, &exp, sizeof(exp))`. -/
  timer_read : Int
  accept_ret : Int
  /-- Return value of the `epoll_ctl` call of the iteration (there is at most one). -/
  ctl_ret : Int
  recv_ret : Int
  /-- The datagram that `recvfrom` stores in `buf`. -/
  recv_data : List Byte
  /-- The source address that `recvfrom` stores in `sa`, and its length. -/
  recv_addr : List Byte
  recv_addrlen : Nat
  sendto_ret : Int
  /-- Return value of `read(ev.data.fd, buf, sizeof(buf))`. -/
  read_ret : Int
  /-- The bytes that `read` stores in `buf`. -/
  read_data : List Byte
  /-- Return value of the `write` call of the iteration, and `errno` after it. -/
  write_ret : Int
  errno : Int
  realloc_ok : Bool
  malloc_ok : Bool

/-- Put the calls `log`, made first, in front of the calls of `r`. -/
def after (log : List Call) (r : Outcome × List Call) : Outcome × List Call :=
  (r.1, log ++ r.2)

/-- Source lines 395-407: allocate the residual buffer, copy the `len` unwritten
bytes `buf + retval` into it, store it in `iob[fd]` and register `fd` for
`EPOLLOUT`. -/
def conn_store (s : State) (w : Wake) (retval len : Int) : Outcome × List Call :=
  match s.iob[w.fd.toNat]? with
  | none => (Outcome.fault, [])
  | some slot =>
    if w.malloc_ok = false then
      -- iob[fd].head = NULL
      (Outcome.cont
        (close_fd { s with iob := s.iob.set w.fd.toNat { slot with head := NULL } } w.fd),
       [Call.malloc len 0, Call.close w.fd])
    else
      -- head = malloc(len); memcpy(head, buf + retval, len); data = head; len = len
      let t : State :=
        { s with
          iob := s.iob.set w.fd.toNat { head := ⟨s.brk, 0⟩, data := ⟨s.brk, 0⟩, len := len.toNat }
          heap := Function.update s.heap s.brk (some ((s.buf.drop retval.toNat).take len.toNat))
          brk := s.brk + 1 }
      if w.ctl_ret ≠ 0 then
        match free t.heap ⟨s.brk, 0⟩ with
        | none =>
          (Outcome.fault,
           [Call.malloc len s.brk, Call.epoll_mod w.fd EPOLLOUT, Call.free ⟨s.brk, 0⟩])
        | some heap =>
          (Outcome.cont (close_fd { t with heap := heap } w.fd),
           [Call.malloc len s.brk, Call.epoll_mod w.fd EPOLLOUT, Call.free ⟨s.brk, 0⟩,
            Call.close w.fd])
      else
        (Outcome.cont { t with reg := Function.update t.reg w.fd (some EPOLLOUT) },
         [Call.malloc len s.brk, Call.epoll_mod w.fd EPOLLOUT])

/-- Source lines 377-394: `len -= retval`; nothing is left to do when all bytes
were written; otherwise the table is grown to hold `iob[fd]` if it does not yet,
and the residual bytes are stored. -/
def conn_keep (s : State) (w : Wake) (retval : Int) : Outcome × List Call :=
  if w.read_ret - retval ≤ 0 then (Outcome.cont s, [])
  else if to_size_t w.fd ≥ s.iob.length then
    if w.realloc_ok = false then
      (Outcome.cont (close_fd s w.fd), [Call.realloc false, Call.close w.fd])
    else
      -- niob_size = fd + 1; memset(niob + iob_size, 0, ...)
      after [Call.realloc true]
        (conn_store
          { s with iob := s.iob ++ List.replicate (to_size_t (w.fd + 1) - s.iob.length) iobuf.zero }
          w retval (w.read_ret - retval))
  else conn_store s w retval (w.read_ret - retval)

/-- Source lines 368-376: write back the `len` bytes just read; a failure other
than `EAGAIN` or `EINTR` closes the connection, those two count as 0 bytes
written. -/
def conn_echo (s : State) (w : Wake) : Outcome × List Call :=
  after [Call.write w.fd (s.buf.take w.read_ret.toNat) w.write_ret]
    (if w.write_ret < 0 then
      if w.errno = EAGAIN ∨ w.errno = EINTR then conn_keep s w 0
      else (Outcome.cont (close_fd s w.fd), [Call.close w.fd])
    else conn_keep s w w.write_ret)

/-- The branch `ev.events == EPOLLIN` of the main loop (source lines 358-407). -/
def conn_in (s : State) (w : Wake) : Outcome × List Call :=
  if w.read_ret < 0 then (Outcome.cont s, [Call.read w.fd w.read_ret []])
  else if w.read_ret = 0 then
    (Outcome.cont (close_fd s w.fd), [Call.read w.fd w.read_ret [], Call.close w.fd])
  else
    after [Call.read w.fd w.read_ret (w.read_data.take w.read_ret.toNat)]
      (conn_echo { s with buf := fill s.buf w.read_data w.read_ret.toNat } w)

/-- Source lines 422-433: `len -= retval` in `size_t` arithmetic; a drained
buffer is freed and `fd` registered for `EPOLLIN` again, otherwise `data`
advances by `retval`. -/
def conn_drain (s : State) (w : Wake) (slot : iobuf) (retval : Int) : Outcome × List Call :=
  if to_size_t ((slot.len : Int) - retval) = 0 then
    match free s.heap slot.head with
    | none => (Outcome.fault, [Call.free slot.head])
    | some heap =>
      if w.ctl_ret ≠ 0 then
        (Outcome.cont
          (close_fd { s with iob := s.iob.set w.fd.toNat { slot with len := 0 }, heap := heap } w.fd),
         [Call.free slot.head, Call.epoll_mod w.fd EPOLLIN, Call.close w.fd])
      else
        (Outcome.cont
          { s with
            iob := s.iob.set w.fd.toNat { slot with len := 0 }
            heap := heap
            reg := Function.update s.reg w.fd (some EPOLLIN) },
         [Call.free slot.head, Call.epoll_mod w.fd EPOLLIN])
  else
    (Outcome.cont
      { s with
        iob := s.iob.set w.fd.toNat
          { slot with
            len := to_size_t ((slot.len : Int) - retval)
            data := ⟨slot.data.blk, slot.data.off + retval.toNat⟩ } },
     [])

/-- The branch `ev.events == EPOLLOUT` of the main loop (source lines 408-434).
The `write` call reads `iob[fd].len` bytes at `iob[fd].data`. -/
def conn_out (s : State) (w : Wake) : Outcome × List Call :=
  match s.iob[w.fd.toNat]? with
  | none => (Outcome.fault, [])
  | some slot =>
    match load s.heap slot.data slot.len with
    | none => (Outcome.fault, [])
    | some src =>
      after [Call.write w.fd src w.write_ret]
        (if w.write_ret < 0 then
          if w.errno = EAGAIN ∨ w.errno = EINTR then conn_drain s w slot 0
          else
            match free s.heap slot.head with
            | none => (Outcome.fault, [Call.free slot.head])
            | some heap =>
              (Outcome.cont (close_fd { s with heap := heap } w.fd),
               [Call.free slot.head, Call.close w.fd])
        else conn_drain s w slot w.write_ret)

/-- One iteration of `while (1)` in `main` (source lines 292-435), after
`epoll_wait` has returned: the dispatch on `ev.data.fd` and `ev.events`. -/
def dispatch (s : State) (w : Wake) : Outcome × List Call :=
  if w.fd = s.signal_fd then
    let log := [Call.read_signal w.sig_read w.ssi_signo]
    if w.sig_read ≠ SIZEOF_SSI then (Outcome.exit EXIT_FAILURE, log)
    else if w.ssi_signo = SIGTERM then (Outcome.exit EXIT_SUCCESS, log)
    else if w.ssi_signo = SIGHUP then
      let (r, backlog) := load_conf w.conf s.backlog
      if r ≠ 0 then (Outcome.exit EXIT_FAILURE, log)
      else
        let log := log ++ [Call.listen s.listen_fd backlog]
        if w.listen_ret ≠ 0 then (Outcome.exit EXIT_FAILURE, log)
        else (Outcome.cont { s with backlog := backlog }, log)
    else (Outcome.exit EXIT_FAILURE, log)
  else if w.fd = s.timer_fd then
    let log := [Call.read_timer w.timer_read]
    if w.timer_read ≠ SIZEOF_U64 then (Outcome.exit EXIT_FAILURE, log)
    else (Outcome.cont s, log ++ [Call.sd_notify 0 "WATCHDOG=1"])
  else if w.fd = s.listen_fd then
    let fd := w.accept_ret
    let log := [Call.accept fd]
    if fd < 0 then (Outcome.cont s, log)
    else
      let log := log ++ [Call.epoll_add fd EPOLLIN]
      if w.ctl_ret ≠ 0 then (Outcome.exit EXIT_FAILURE, log)
      else (Outcome.cont { s with reg := Function.update s.reg fd (some EPOLLIN) }, log)
  else if w.fd = s.dgram_fd then
    let retval := w.recv_ret
    let log := [Call.recvfrom s.dgram_fd retval]
    if retval ≤ 0 then (Outcome.cont s, log)
    else
      let buf := fill s.buf w.recv_data retval.toNat
      (Outcome.cont { s with buf := buf },
       log ++ [Call.sendto s.dgram_fd (buf.take retval.toNat) w.recv_addr w.recv_addrlen])
  else if w.events = EPOLLIN then conn_in s w
  else if w.events = EPOLLOUT then conn_out s w
  else (Outcome.cont s, [])

/-- One iteration of the main loop, `epoll_wait` included. -/
def loop_body (s : State) (w : Wake) : Outcome × List Call :=
  if w.n_fds ≤ 0 then (Outcome.cont s, [Call.epoll_wait w.n_fds])
  else
    match dispatch s w with
    | (o, log) => (o, Call.epoll_wait w.n_fds :: log)

/-- The main loop run on a finite sequence of wake-ups. The result is `cont s`
when the loop is still running after the last of them. -/
def loop : State → List Wake → Outcome × List Call
  | s, [] => (Outcome.cont s, [])
  | s, w :: ws =>
    match loop_body s w with
    | (Outcome.cont s', log) =>
      match loop s' ws with
      | (o, log') => (o, log ++ log')
    | (o, log) => (o, log)

/-- Source `main`, run on a finite sequence of wake-ups. -/
def main (env : BootEnv) (ws : List Wake) : Outcome × List Call :=
  match startup env with
  | (Outcome.cont s, log) =>
    match loop s ws with
    | (o, log') => (o, log ++ log')
  | (o, log) => (o, log)

/-! ## What the kernel guarantees, and the states the loop can reach -/

/-- Whether `fd` is on the interest list with (at least) the event `flag`. -/
def asked (s : State) (fd : Int) (flag : Nat) : Bool :=
  match s.reg fd with
  | none => false
  | some m => m &&& flag ≠ 0

/-- The byte count the `write` call of a connection branch is given: the count
just read in the `EPOLLIN` branch, the `len` of the slot in the `EPOLLOUT`
branch. -/
def write_count (s : State) (w : Wake) : Int :=
  if w.events = EPOLLIN then w.read_ret
  else
    match s.iob[w.fd.toNat]? with
    | none => 0
    | some slot => slot.len

/-- The contract of the kernel for one wake-up in state `s`:
* `epoll_wait` reports a descriptor that is on the interest list, and reports it
  readable (writable) only if it is registered for that;
* `accept` returns a descriptor that is not open yet;
* `read` and `recvfrom` return at most the buffer size and store as many bytes
  as they return;
* `write` returns at most the count it was given. -/
def WakeOK (s : State) (w : Wake) : Prop :=
  (0 < w.n_fds →
    (s.reg w.fd).isSome = true ∧
    (w.events &&& EPOLLIN ≠ 0 → asked s w.fd EPOLLIN = true) ∧
    (w.events &&& EPOLLOUT ≠ 0 → asked s w.fd EPOLLOUT = true)) ∧
  (0 ≤ w.accept_ret → s.reg w.accept_ret = none) ∧
  (w.read_ret ≤ BUFSZ ∧ (0 < w.read_ret → w.read_data.length = w.read_ret.toNat)) ∧
  (w.recv_ret ≤ BUFSZ ∧ (0 < w.recv_ret → w.recv_data.length = w.recv_ret.toNat)) ∧
  w.write_ret ≤ write_count s w

instance (s : State) (w : Wake) : Decidable (WakeOK s w) := by
  unfold WakeOK
  infer_instance

/-- The states the main loop can be in at the top of an iteration, with the log
of calls made so far: the state start-up enters the loop with, and every state
an iteration leads to from there under the kernel contract. -/
inductive Reach : State → List Call → Prop
  | boot (env : BootEnv) (s : State) (log : List Call) :
      startup env = (Outcome.cont s, log) → Reach s log
  | step (s : State) (log : List Call) (w : Wake) (s' : State) (l : List Call) :
      Reach s log → WakeOK s w → loop_body s w = (Outcome.cont s', l) → Reach s' (log ++ l)

/-! ## Observations -/

/-- One step of `rx`. -/
def rx_step (fd : Int) (acc : List Byte) : Call → List Byte
  | Call.accept r => if r = fd then [] else acc
  | Call.read f _ got => if f = fd then acc ++ got else acc
  | _ => acc

/-- The bytes read from descriptor `fd` since it was last returned by `accept`. -/
def rx (fd : Int) (log : List Call) : List Byte :=
  log.foldl (rx_step fd) []

/-- One step of `tx`. -/
def tx_step (fd : Int) (acc : List Byte) : Call → List Byte
  | Call.accept r => if r = fd then [] else acc
  | Call.write f src ret => if f = fd then acc ++ src.take ret.toNat else acc
  | _ => acc

/-- The bytes written to descriptor `fd` since it was last returned by `accept`:
of every `write` the first `ret` bytes offered (none when `ret` is negative). -/
def tx (fd : Int) (log : List Call) : List Byte :=
  log.foldl (tx_step fd) []

/-- The datagrams sent: payload, destination address and address length of every
`sendto` in a log. -/
def sent (log : List Call) : List (List Byte × List Byte × Nat) :=
  log.filterMap fun c =>
    match c with
    | Call.sendto _ payload addr addrlen => some (payload, addr, addrlen)
    | _ => none

/-- The slot `iob[fd]`, if `fd` lies inside the table. -/
def slot_of (s : State) (fd : Int) : Option iobuf :=
  if fd < 0 then none else s.iob[fd.toNat]?

/-- The live buffer owned by slot `iob[fd]`: the contents of the block `head`
points to, if the slot is inside the table and the block has been allocated and
not freed. -/
def live_buffer (s : State) (fd : Int) : Option (List Byte) :=
  match slot_of s fd with
  | none => none
  | some slot => s.heap slot.head.blk

/-- The residual bytes held in slot `iob[fd]`: the `len` bytes at `data`, when
they lie in a live block; nothing when the slot has no live buffer. -/
def residual (s : State) (fd : Int) : List Byte :=
  match slot_of s fd with
  | none => []
  | some slot =>
    match s.heap slot.data.blk with
    | none => []
    | some b => (b.drop slot.data.off).take slot.len

/-- Whether a call is one of `socket`, `bind`, `listen`. -/
def Call.makes_socket : Call → Bool
  | Call.socket_stream _ => true
  | Call.socket_dgram _ => true
  | Call.bind _ => true
  | Call.listen _ _ => true
  | _ => false

/-- Whether a call is `epoll_wait`, the first call of every loop iteration. -/
def Call.is_wait : Call → Bool
  | Call.epoll_wait _ => true
  | _ => false

/-- The invariant of the connection table.
* `brk_pos`: block numbers handed out start at 1;
* `heap_lt`: live blocks have numbers between 1 and `brk - 1`;
* `ptr_lt`: the pointers stored in the table were handed out by `malloc` before;
* `reg_ok`: registered descriptors are non-negative and registered for exactly
  one of `EPOLLIN` and `EPOLLOUT`;
* `writing`: a descriptor registered for `EPOLLOUT` has a slot inside the table
  whose `head` is a live block, with `data` inside that block, between 1 and
  4096 bytes left, ending where the block ends;
* `idle`: the slot of any other descriptor points to no live block;
* `owner`: a live block is the `head` of at most one slot;
* `owned`: every live block is the `head` of some slot. -/
structure Inv (s : State) : Prop where
  brk_pos : 0 < s.brk
  heap_lt : ∀ b, s.heap b ≠ none → 0 < b ∧ b < s.brk
  ptr_lt : ∀ (i : Nat) (slot : iobuf), s.iob[i]? = some slot → slot.head.blk < s.brk ∧ slot.data.blk < s.brk
  reg_ok : ∀ fd m, s.reg fd = some m → 0 ≤ fd ∧ (m = EPOLLIN ∨ m = EPOLLOUT)
  writing : ∀ fd, s.reg fd = some EPOLLOUT →
    ∃ (slot : iobuf) (b : List Byte), s.iob[fd.toNat]? = some slot ∧ s.heap slot.head.blk = some b ∧
      slot.head.off = 0 ∧ slot.data.blk = slot.head.blk ∧
      1 ≤ slot.len ∧ slot.len ≤ BUFSZ ∧ slot.data.off + slot.len = b.length
  idle : ∀ (i : Nat) (slot : iobuf), s.reg (i : Int) ≠ some EPOLLOUT → s.iob[i]? = some slot →
    s.heap slot.head.blk = none ∧ s.heap slot.data.blk = none
  owner : ∀ (i j : Nat) (si sj : iobuf), i ≠ j → s.iob[i]? = some si → s.iob[j]? = some sj →
    s.heap si.head.blk ≠ none → sj.head.blk ≠ si.head.blk
  owned : ∀ b, s.heap b ≠ none → ∃ (i : Nat) (slot : iobuf), s.iob[i]? = some slot ∧ slot.head.blk = b

/-- What an iteration that handles descriptor `fd0` leaves alone: the
registration of every other descriptor, every other slot of the table (the
table may grow, by zeroed slots), and the blocks the other slots point to. -/
structure Frame (s s' : State) (fd0 : Int) : Prop where
  reg_eq : ∀ fd, fd ≠ fd0 → s'.reg fd = s.reg fd
  slot_eq : ∀ (j : Nat), j ≠ fd0.toNat → j < s.iob.length → s'.iob[j]? = s.iob[j]?
  size_le : s.iob.length ≤ s'.iob.length
  fresh_zero : ∀ (j : Nat) (slot : iobuf), j ≠ fd0.toNat → s.iob.length ≤ j → s'.iob[j]? = some slot →
    slot = iobuf.zero
  heap_eq : ∀ (j : Nat) (slot : iobuf), j ≠ fd0.toNat → s.iob[j]? = some slot →
    s'.heap slot.head.blk = s.heap slot.head.blk ∧ s'.heap slot.data.blk = s.heap slot.data.blk

/-- What a connection branch guarantees when it handles descriptor `fd0` and
ends with outcome and calls `r`: the loop goes on in a state that satisfies the
table invariant and differs from `s` only in what belongs to `fd0`; if `fd0`
was closed it is off the interest list; and if it is still open, the bytes
written in this iteration followed by the residual bytes now held are the
residual bytes held before followed by the bytes read in this iteration. -/
def ConnOK (s : State) (fd0 : Int) (r : Outcome × List Call) : Prop :=
  ∃ s', r.1 = Outcome.cont s' ∧ Inv s' ∧ Frame s s' fd0 ∧
    (Call.close fd0 ∈ r.2 → s'.reg fd0 = none) ∧
    (s'.reg fd0 ≠ none → tx fd0 r.2 ++ residual s' fd0 = residual s fd0 ++ rx fd0 r.2)

/-- The calls that neither transfer stream data nor open or close a connection:
everything except `read`, `write`, `close` and a successful `accept`. -/
def Call.quiet : Call → Prop
  | Call.accept r => r < 0
  | Call.read _ _ _ => False
  | Call.write _ _ _ => False
  | Call.close _ => False
  | _ => True

/-- The interest list start-up builds: only non-negative descriptors, each
registered for `EPOLLIN`. -/
def BootReg (reg : Int → Option Nat) : Prop :=
  ∀ fd m, reg fd = some m → 0 ≤ fd ∧ m = EPOLLIN

/-- Stream echo integrity at one point of a run: for every descriptor on the
interest list, the bytes written to it so far followed by the residual bytes
held in its slot are the bytes read from it so far. -/
def Echo (s : State) (log : List Call) : Prop :=
  ∀ fd, s.reg fd ≠ none → tx fd log ++ residual s fd = rx fd log

/-! ## The configuration format as the specification words it -/

/-- A line that is empty or white space only. -/
def blank (l : List Char) : Bool :=
  l.all isspace

/-- A string with the white space at both ends removed. -/
def trimmed (l : List Char) : List Char :=
  (str_lstrip (str_lstrip l).reverse).reverse

/-- A positive decimal integer: one or more decimal digits, nothing else, with a
value above zero. -/
def positive_decimal (v : List Char) : Bool :=
  !v.isEmpty && v.all isdigit && decide (0 < digits_value v 0)

/-- A line of the form `Key=Value` with key `Backlog` and a positive decimal
integer as value, white space around either part disregarded. -/
def backlog_line (l : List Char) : Bool :=
  match strchr_cut '=' l with
  | none => false
  | some (k, v) => decide (trimmed k = "Backlog".toList) && positive_decimal (trimmed v)

/-- The set of configuration files the specification accepts: every line that is
not blank is a `Backlog` line. -/
def spec_accepts (lines : List (List Char)) : Bool :=
  lines.all fun l => blank l || backlog_line l

/-- A line in which the character before the first `=` is not white space, so
that a trailing-white-space strip of the key has nothing to remove. -/
def key_tight (l : List Char) : Bool :=
  match strchr_cut '=' l with
  | none => true
  | some (k, _) => (k.reverse.head?.map isspace).getD false = false

/-- A line the loader takes: optional leading white space, the key `Backlog`
directly followed by `=`, and a value from which `atoi` reads a positive number
(`atoi` skips leading white space and a sign and stops at the first character
that is not a digit). -/
def loader_line (l : List Char) : Prop :=
  ∃ ws v, (∀ c ∈ ws, isspace c = true) ∧ l = ws ++ ("Backlog=".toList ++ v) ∧ 0 < atoi v

/-- How the two probes classify an inherited descriptor. -/
inductive SockKind
  | stream
  | dgram
  | neither
  | error
deriving DecidableEq, Repr

/-- The classification of an inherited descriptor by the outcome of the probes:
a listening stream socket if the stream probe says yes; else, if the stream
probe says no, a datagram socket if the datagram probe says yes and neither if
it says no; an error if a probe that is consulted returns a negative value. -/
def fd_kind (env : BootEnv) (fd : Int) : SockKind :=
  if 0 < env.is_stream fd then SockKind.stream
  else if env.is_stream fd < 0 then SockKind.error
  else if 0 < env.is_dgram fd then SockKind.dgram
  else if env.is_dgram fd < 0 then SockKind.error
  else SockKind.neither

/-- The calls start-up can make: socket set-up calls, and `timerfd_settime` only
with the interval computed from `WATCHDOG_USEC`; none of the calls of the main
loop. -/
def boot_call (env : BootEnv) : Call → Prop
  | Call.timerfd_settime _ its =>
    ∃ str, env.watchdog_usec = some str ∧ its = watchdog_its (strtoull str)
  | Call.epoll_create1 _ => True
  | Call.socket_stream _ => True
  | Call.socket_dgram _ => True
  | Call.setsockopt _ => True
  | Call.bind _ => True
  | Call.listen _ _ => True
  | Call.epoll_add _ _ => True
  | Call.signalfd _ => True
  | Call.timerfd_create _ => True
  | Call.sd_notify _ _ => True
  | _ => False

/-- The calls a connection branch of the main loop can make when it handles
descriptor `fd`: `read`, `write`, `epoll_ctl` and `close` on `fd` itself, and the
memory calls. -/
def Call.on_conn (fd : Int) : Call → Prop
  | Call.read f _ _ => f = fd
  | Call.write f _ _ => f = fd
  | Call.epoll_mod f _ => f = fd
  | Call.close f => f = fd
  | Call.realloc _ => True
  | Call.malloc _ _ => True
  | Call.free _ => True
  | _ => False

/-! ## Sample environments, used to exercise the model -/

/-- A configuration file with the single line `Backlog=5`. -/
def sample_conf : ConfFile :=
  { fopen_ok := true, lines := ["Backlog=5".toList ++ [Char.ofNat 10]], read_ok := true }

/-- A start-up in which the program is started by init without inherited
descriptors and without a watchdog, and every call succeeds: the epoll
descriptor is 3, the listening socket 4, the datagram socket 5 and the signal
descriptor 6. -/
def sample_env : BootEnv :=
  { ppid := 1, conf := sample_conf, argc := 1, epoll_create1 := 3, sd_listen_fds := 0,
    is_stream := fun _ => 0, is_dgram := fun _ => 0,
    socket_stream := 4, setsockopt := 0, bind_stream := 0, listen := 0, ctl_listen := 0,
    socket_dgram := 5, bind_dgram := 0, ctl_dgram := 0, signalfd := 6, ctl_signal := 0,
    watchdog_usec := none, timerfd_create := 7, timerfd_settime := 0, ctl_timer := 0 }

/-- The state in which `sample_env` enters the main loop. -/
def sample_state : State :=
  { epfd := 3, signal_fd := 6, listen_fd := 4, dgram_fd := 5, timer_fd := -1, backlog := 5,
    buf := List.replicate BUFSZ 0, iob := [], heap := fun _ => none, brk := 1,
    reg := Function.update (Function.update (Function.update (fun _ => none)
      4 (some EPOLLIN)) 5 (some EPOLLIN)) 6 (some EPOLLIN) }

/-- A wake-up reporting `events` on `fd` in which every call the iteration makes
succeeds and transfers nothing. -/
def wake (fd : Int) (events : Nat) : Wake :=
  { n_fds := 1, events := events, fd := fd, sig_read := SIZEOF_SSI, ssi_signo := SIGHUP,
    conf := sample_conf, listen_ret := 0, timer_read := SIZEOF_U64, accept_ret := -1,
    ctl_ret := 0, recv_ret := 0, recv_data := [], recv_addr := [], recv_addrlen := 0,
    sendto_ret := 0, read_ret := 0, read_data := [], write_ret := 0, errno := 0,
    realloc_ok := true, malloc_ok := true }

/-- The run of `sample_env` in which the first wake-up delivers `SIGTERM`. -/
def sigterm_run : List Wake :=
  [{ wake 6 EPOLLIN with ssi_signo := SIGTERM }]

/-- A start-up like `sample_env` in which the supervisor passes descriptors 3
and 4 and both are listening stream sockets. -/
def two_streams_env : BootEnv :=
  { sample_env with sd_listen_fds := 2, is_stream := fun _ => 1 }

/-- A start-up like `sample_env` with `WATCHDOG_USEC=3000001`. -/
def watchdog_env : BootEnv :=
  { sample_env with watchdog_usec := some "3000001".toList }

/-- The state of `sample_env` after one connection was accepted on descriptor 7:
it is registered for `EPOLLIN` and has no buffer. -/
def reading_state : State :=
  { sample_state with reg := Function.update sample_state.reg 7 (some EPOLLIN) }

/-- A wake-up in which the kernel reports descriptor 7 readable together with a
hang-up of the peer (`EPOLLIN | EPOLLHUP`), with 5 bytes ready to be read. -/
def hangup_wake : Wake :=
  { wake 7 (EPOLLIN ||| EPOLLHUP) with read_ret := 5, read_data := [104, 101, 108, 108, 111] }

/-- A wake-up on the datagram socket of `sample_env` delivering the datagram `x`
from a 28-byte source address. -/
def datagram_wake : Wake :=
  { wake 5 EPOLLIN with
    recv_ret := 1, recv_data := [120], recv_addr := List.replicate 28 1, recv_addrlen := 28,
    sendto_ret := -1 }

/-- Whether every wake-up of a run respects the kernel contract in the state in
which it is delivered. -/
def wakes_ok : State → List Wake → Bool
  | _, [] => true
  | s, w :: ws =>
    decide (WakeOK s w) &&
      match loop_body s w with
      | (Outcome.cont s', _) => wakes_ok s' ws
      | _ => true

/-- The state the loop is in after a run, when it is still running. -/
def state_after (s : State) (ws : List Wake) : State :=
  match loop s ws with
  | (Outcome.cont s', _) => s'
  | _ => s

/-- A wake-up in which `accept` returns descriptor 7. -/
def accept7_wake : Wake :=
  { wake 4 EPOLLIN with accept_ret := 7 }

/-- A wake-up in which `accept` returns descriptor 8. -/
def accept8_wake : Wake :=
  { wake 4 EPOLLIN with accept_ret := 8 }

/-- A wake-up in which connection 7 delivers the 5 bytes `hello` and the `write`
back takes only 2 of them. -/
def hello_wake : Wake :=
  { wake 7 EPOLLIN with
    read_ret := 5, read_data := [104, 101, 108, 108, 111], write_ret := 2 }

/-- A wake-up in which the peer of connection 8 has closed: `read` returns 0. -/
def eof8_wake : Wake :=
  wake 8 EPOLLIN

/-- A wake-up in which connection 7 is writable but `write` fails with `EPIPE`. -/
def epipe7_wake : Wake :=
  { wake 7 EPOLLOUT with write_ret := -1, errno := 32 }

/-- The run of `sample_env` in which connections 7 and 8 are accepted and
connection 7 is left with 3 residual bytes. -/
def short_run : List Wake :=
  [accept7_wake, accept8_wake, hello_wake]

/-- The state after `short_run`. -/
def short_state : State :=
  state_after sample_state short_run


/-! ## The configuration loader -/

theorem str_lstrip_eq_dropWhile (l : List Char) : str_lstrip l = l.dropWhile isspace := by
  induction l with
  | nil => rfl
  | cons c cs ih =>
    by_cases h : isspace c = true
    · simp [str_lstrip, List.dropWhile, h, ih]
    · simp [str_lstrip, List.dropWhile, h]

theorem str_lstrip_spaces (ws r : List Char) (h : ∀ c ∈ ws, isspace c = true) :
    str_lstrip (ws ++ r) = str_lstrip r := by
  induction ws with
  | nil => rfl
  | cons c cs ih =>
    have hc : isspace c = true := h c (List.mem_cons_self _ _)
    have := ih (fun x hx => h x (List.mem_cons_of_mem _ hx))
    simp [str_lstrip, hc, this]

theorem str_lstrip_idem (l : List Char) : str_lstrip (str_lstrip l) = str_lstrip l := by
  induction l with
  | nil => rfl
  | cons c cs ih =>
    by_cases h : isspace c = true
    · simp [str_lstrip, h, ih]
    · simp [str_lstrip, h]

theorem str_lstrip_nil_iff (l : List Char) : str_lstrip l = [] ↔ blank l = true := by
  induction l with
  | nil => simp [str_lstrip, blank]
  | cons c cs ih =>
    by_cases h : isspace c = true
    · simp [str_lstrip, h, blank] at ih ⊢
      exact ih
    · simp [str_lstrip, h, blank]

theorem str_lstrip_split (l : List Char) :
    ∃ ws, (∀ c ∈ ws, isspace c = true) ∧ l = ws ++ str_lstrip l := by
  refine ⟨l.takeWhile isspace, ?_, ?_⟩
  · intro c hc
    exact (List.mem_takeWhile_imp hc)
  · rw [str_lstrip_eq_dropWhile, List.takeWhile_append_dropWhile]

theorem atoi_lstrip (v : List Char) : atoi (str_lstrip v) = atoi v := by
  simp [atoi, strtol, str_lstrip_idem]

theorem strchr_cut_some (c : Char) (l k p : List Char) (h : strchr_cut c l = some (k, p)) :
    l = k ++ c :: p := by
  induction l generalizing k with
  | nil => simp [strchr_cut] at h
  | cons x xs ih =>
    by_cases hx : x = c
    · simp [strchr_cut, hx] at h
      simp [hx, h.1.symm, h.2]
    · simp only [strchr_cut, hx, if_false] at h
      cases hr : strchr_cut c xs with
      | none => simp [hr] at h
      | some ab =>
        obtain ⟨a, b⟩ := ab
        simp [hr] at h
        obtain ⟨h1, h2⟩ := h
        subst h1 h2
        simp [ih a hr]

theorem strchr_cut_backlog (v : List Char) :
    strchr_cut '=' ("Backlog=".toList ++ v) = some ("Backlog".toList, v) := by
  simp [strchr_cut]

theorem str_lstrip_backlog (v : List Char) :
    str_lstrip ("Backlog=".toList ++ v) = "Backlog=".toList ++ v := by
  simp [str_lstrip, isspace]

theorem load_conf_loop_blank (l : List Char) (rest : List (List Char)) (b : Int)
    (h : blank l = true) : load_conf_loop (l :: rest) b = load_conf_loop rest b := by
  have h0 : str_lstrip l = [] := (str_lstrip_nil_iff l).2 h
  simp [load_conf_loop, str_strip, str_rstrip, h0]

theorem load_conf_loop_backlog (ws v : List Char) (rest : List (List Char)) (b : Int)
    (hws : ∀ c ∈ ws, isspace c = true) (hv : 0 < atoi v) :
    load_conf_loop ((ws ++ ("Backlog=".toList ++ v)) :: rest) b = load_conf_loop rest (atoi v) := by
  have h1 : str_lstrip (ws ++ ("Backlog=".toList ++ v)) = "Backlog=".toList ++ v := by
    rw [str_lstrip_spaces _ _ hws, str_lstrip_backlog]
  have h2 : ("Backlog=".toList ++ v) ≠ [] := by simp
  have h3 : ¬ atoi v ≤ 0 := by omega
  simp only [load_conf_loop, str_strip, str_rstrip, h1, strchr_cut_backlog, atoi_lstrip]
  simp [h3]

theorem load_conf_loop_head (l : List Char) (rest : List (List Char)) (b : Int)
    (h : (load_conf_loop (l :: rest) b).1 = true) : blank l = true ∨ loader_line l := by
  by_cases hb : blank l = true
  · exact Or.inl hb
  · right
    have h0 : str_lstrip l ≠ [] := fun e => hb ((str_lstrip_nil_iff l).1 e)
    simp only [load_conf_loop, str_strip, str_rstrip, h0, if_false] at h
    cases hc : strchr_cut '=' (str_lstrip l) with
    | none => simp [hc] at h
    | some kp =>
      obtain ⟨k, p⟩ := kp
      simp only [hc] at h
      by_cases hk : k = "Backlog".toList
      · simp only [hk, if_true, atoi_lstrip] at h
        by_cases hv : atoi p ≤ 0
        · simp [hv] at h
        · obtain ⟨ws, hws, hl⟩ := str_lstrip_split l
          refine ⟨ws, p, hws, ?_, by omega⟩
          have := strchr_cut_some _ _ _ _ hc
          rw [this, hk] at hl
          simpa using hl
      · have hk' : k ≠ ['B', 'a', 'c', 'k', 'l', 'o', 'g'] := hk
        simp [hk'] at h

theorem load_conf_loop_accepts (lines : List (List Char)) (b : Int) :
    (load_conf_loop lines b).1 = true ↔ ∀ l ∈ lines, blank l = true ∨ loader_line l := by
  induction lines generalizing b with
  | nil => simp [load_conf_loop]
  | cons l rest ih =>
    constructor
    · intro h
      have hl := load_conf_loop_head l rest b h
      intro x hx
      rcases List.mem_cons.1 hx with hxl | hxr
      · rw [hxl]; exact hl
      · rcases hl with hb | ⟨ws, v, hws, rfl, hv⟩
        · rw [load_conf_loop_blank _ _ _ hb] at h
          exact (ih b).1 h x hxr
        · rw [load_conf_loop_backlog _ _ _ _ hws hv] at h
          exact (ih _).1 h x hxr
    · intro h
      have hrest : ∀ x ∈ rest, blank x = true ∨ loader_line x :=
        fun x hx => h x (List.mem_cons_of_mem _ hx)
      rcases h l (List.mem_cons_self _ _) with hb | ⟨ws, v, hws, rfl, hv⟩
      · rw [load_conf_loop_blank _ _ _ hb]
        exact (ih b).2 hrest
      · rw [load_conf_loop_backlog _ _ _ _ hws hv]
        exact (ih _).2 hrest

theorem load_conf_loop_all_blank (post : List (List Char)) (b : Int)
    (h : ∀ l ∈ post, blank l = true) : load_conf_loop post b = (true, b) := by
  induction post with
  | nil => rfl
  | cons l rest ih =>
    rw [load_conf_loop_blank _ _ _ (h l (List.mem_cons_self _ _))]
    exact ih (fun x hx => h x (List.mem_cons_of_mem _ hx))

theorem load_conf_loop_last (pre : List (List Char)) (ws v : List Char)
    (post : List (List Char)) (b : Int) (hws : ∀ c ∈ ws, isspace c = true)
    (hpost : ∀ l ∈ post, blank l = true)
    (h : (load_conf_loop (pre ++ (ws ++ ("Backlog=".toList ++ v)) :: post) b).1 = true) :
    (load_conf_loop (pre ++ (ws ++ ("Backlog=".toList ++ v)) :: post) b).2 = atoi v := by
  induction pre generalizing b with
  | nil =>
    have hl := (load_conf_loop_accepts _ b).1 h (ws ++ ("Backlog=".toList ++ v)) (by simp)
    have hv : 0 < atoi v := by
      rcases hl with hb | ⟨ws', v', hws', e, hv'⟩
      · have : str_lstrip (ws ++ ("Backlog=".toList ++ v)) = [] := (str_lstrip_nil_iff _).2 hb
        rw [str_lstrip_spaces _ _ hws, str_lstrip_backlog] at this
        simp at this
      · have e1 : str_lstrip (ws ++ ("Backlog=".toList ++ v))
            = str_lstrip (ws' ++ ("Backlog=".toList ++ v')) := by rw [e]
        rw [str_lstrip_spaces _ _ hws, str_lstrip_spaces _ _ hws', str_lstrip_backlog,
          str_lstrip_backlog] at e1
        have : v = v' := by simpa using e1
        rw [this]; exact hv'
    simp only [List.nil_append]
    rw [load_conf_loop_backlog _ _ _ _ hws hv, load_conf_loop_all_blank _ _ hpost]
  | cons l rest ih =>
    simp only [List.cons_append] at h ⊢
    rcases load_conf_loop_head _ _ _ h with hb | ⟨ws', v', hws', rfl, hv'⟩
    · rw [load_conf_loop_blank _ _ _ hb] at h ⊢
      exact ih b h
    · rw [load_conf_loop_backlog _ _ _ _ hws' hv'] at h ⊢
      exact ih _ h

theorem load_conf_ret (f : ConfFile) (b : Int) (hopen : f.fopen_ok = true)
    (hread : f.read_ok = true) :
    load_conf f b = (if (load_conf_loop f.lines b).1 = true then 0 else -1,
      (load_conf_loop f.lines b).2) := by
  unfold load_conf
  rcases hr : load_conf_loop f.lines b with ⟨ok, b'⟩
  cases ok <;> simp [hopen, hread]

/-! ## Start-up -/

theorem boot_watchdog_calls (env : BootEnv) (epfd signal_fd listen_fd dgram_fd backlog : Int)
    (reg : Int → Option Nat) (log : List Call) (h : ∀ c ∈ log, boot_call env c) :
    ∀ c ∈ (boot_watchdog env epfd signal_fd listen_fd dgram_fd backlog reg log).2,
      boot_call env c := by
  unfold boot_watchdog
  cases hw : env.watchdog_usec with
  | none =>
    simp only [List.forall_mem_append, List.forall_mem_singleton]
    exact ⟨h, trivial⟩
  | some str =>
    have hs : boot_call env (Call.timerfd_settime env.timerfd_create
        (watchdog_its (strtoull str))) := ⟨str, hw, rfl⟩
    simp only
    split_ifs <;> simp only [List.forall_mem_append, List.forall_mem_singleton] <;>
      simp only [boot_call, and_true] <;> first | exact h | exact ⟨h, hs⟩

theorem boot_dgram_calls (env : BootEnv) (epfd listen_fd dgram_fd backlog : Int)
    (reg : Int → Option Nat) (log : List Call) (h : ∀ c ∈ log, boot_call env c) :
    ∀ c ∈ (boot_dgram env epfd listen_fd dgram_fd backlog reg log).2, boot_call env c := by
  unfold boot_dgram
  simp only
  split_ifs <;> first
    | (apply boot_watchdog_calls
       simp only [List.forall_mem_append, List.forall_mem_singleton, boot_call, and_true]
       exact h)
    | (simp only [List.forall_mem_append, List.forall_mem_singleton, boot_call, and_true]
       exact h)

theorem boot_listen_calls (env : BootEnv) (epfd listen_fd dgram_fd backlog : Int)
    (log : List Call) (h : ∀ c ∈ log, boot_call env c) :
    ∀ c ∈ (boot_listen env epfd listen_fd dgram_fd backlog log).2, boot_call env c := by
  unfold boot_listen
  simp only
  split_ifs <;> first
    | (apply boot_dgram_calls
       simp only [List.forall_mem_append, List.forall_mem_singleton, boot_call, and_true]
       exact h)
    | (simp only [List.forall_mem_append, List.forall_mem_singleton, boot_call, and_true]
       exact h)

theorem startup_calls (env : BootEnv) : ∀ c ∈ (startup env).2, boot_call env c := by
  have h1 : ∀ c ∈ [Call.epoll_create1 env.epoll_create1], boot_call env c := by
    intro c hc
    rw [List.mem_singleton.1 hc]; trivial
  unfold startup
  simp only
  split_ifs <;> first
    | exact h1
    | (intro c hc; cases hc)
    | skip
  split
  · exact h1
  · exact boot_listen_calls _ _ _ _ _ _ h1

/-- Every way start-up can end without entering the loop returns the failure
status. -/
theorem boot_watchdog_exit (env : BootEnv) (epfd signal_fd listen_fd dgram_fd backlog : Int)
    (reg : Int → Option Nat) (log : List Call) :
    (∃ s, (boot_watchdog env epfd signal_fd listen_fd dgram_fd backlog reg log).1
        = Outcome.cont s) ∨
    (boot_watchdog env epfd signal_fd listen_fd dgram_fd backlog reg log).1
        = Outcome.exit EXIT_FAILURE := by
  unfold boot_watchdog
  cases env.watchdog_usec with
  | none => left; exact ⟨_, rfl⟩
  | some str =>
    simp only
    split_ifs <;> first
      | (right; rfl)
      | (left; exact ⟨_, rfl⟩)

theorem boot_dgram_exit (env : BootEnv) (epfd listen_fd dgram_fd backlog : Int)
    (reg : Int → Option Nat) (log : List Call) :
    (∃ s, (boot_dgram env epfd listen_fd dgram_fd backlog reg log).1 = Outcome.cont s) ∨
    (boot_dgram env epfd listen_fd dgram_fd backlog reg log).1 = Outcome.exit EXIT_FAILURE := by
  unfold boot_dgram
  simp only
  split_ifs <;> first
    | (right; rfl)
    | exact boot_watchdog_exit _ _ _ _ _ _ _ _

theorem boot_listen_exit (env : BootEnv) (epfd listen_fd dgram_fd backlog : Int)
    (log : List Call) :
    (∃ s, (boot_listen env epfd listen_fd dgram_fd backlog log).1 = Outcome.cont s) ∨
    (boot_listen env epfd listen_fd dgram_fd backlog log).1 = Outcome.exit EXIT_FAILURE := by
  unfold boot_listen
  simp only
  split_ifs <;> first
    | (right; rfl)
    | exact boot_dgram_exit _ _ _ _ _ _ _

theorem startup_exit (env : BootEnv) :
    (∃ s, (startup env).1 = Outcome.cont s) ∨ (startup env).1 = Outcome.exit EXIT_FAILURE := by
  unfold startup
  simp only
  split_ifs <;> first
    | (right; rfl)
    | skip
  split
  · right; rfl
  · exact boot_listen_exit _ _ _ _ _ _

theorem to_long_small (x : Nat) (h : x < 2 ^ 63) : to_long x = x := by
  unfold to_long
  norm_num at h
  omega

theorem watchdog_its_facts (W : Nat) (hW : W < 2 ^ 64) :
    (watchdog_its W).it_value = (watchdog_its W).it_interval ∧
    (watchdog_its W).it_interval.tv_sec * 1000000000 + (watchdog_its W).it_interval.tv_nsec
      = ((W / 2 : Nat) : Int) * 1000 ∧
    0 ≤ (watchdog_its W).it_interval.tv_sec ∧
    0 ≤ (watchdog_its W).it_interval.tv_nsec ∧
    (watchdog_its W).it_interval.tv_nsec < 1000000000 := by
  norm_num at hW
  have hq : W / 2 / 1000000 < 2 ^ 63 := by norm_num; omega
  have hr : W / 2 % 1000000 * 1000 < 1000000000 := by omega
  have hr2 : W / 2 % 1000000 * 1000 % 2 ^ 64 = W / 2 % 1000000 * 1000 :=
    Nat.mod_eq_of_lt (by norm_num; omega)
  have hr3 : W / 2 % 1000000 * 1000 < 2 ^ 63 := by norm_num; omega
  simp only [watchdog_its, hr2, to_long_small _ hq, to_long_small _ hr3]
  refine ⟨trivial, ?_, ?_, ?_, ?_⟩
  · have := Nat.div_add_mod (W / 2) 1000000
    push_cast
    omega
  · exact Int.natCast_nonneg _
  · exact Int.natCast_nonneg _
  · exact_mod_cast hr

theorem strtoull_lt (str : List Char) : strtoull str < 2 ^ 64 := by
  unfold strtoull
  split
  · split_ifs
    · simp [ULLONG_MAX]
    · exact Nat.mod_lt _ (by norm_num)
  · have := Nat.min_le_right (digits_value ‹List Char› 0) ULLONG_MAX
    simp only [ULLONG_MAX] at this ⊢
    omega
  · have := Nat.min_le_right (digits_value ‹List Char› 0) ULLONG_MAX
    simp only [ULLONG_MAX] at this ⊢
    omega

/-! ## The shape of one loop iteration -/

theorem after_fst (log : List Call) (r : Outcome × List Call) : (after log r).1 = r.1 := rfl

theorem after_snd (log : List Call) (r : Outcome × List Call) :
    (after log r).2 = log ++ r.2 := rfl

theorem conn_store_calls (s : State) (w : Wake) (retval len : Int) :
    ∀ c ∈ (conn_store s w retval len).2, Call.on_conn w.fd c := by
  unfold conn_store
  dsimp only
  repeat' split
  all_goals simp [Call.on_conn]

theorem conn_keep_calls (s : State) (w : Wake) (retval : Int) :
    ∀ c ∈ (conn_keep s w retval).2, Call.on_conn w.fd c := by
  unfold conn_keep
  split_ifs
  · simp
  · simp [Call.on_conn]
  · simp only [after_snd, List.forall_mem_append, List.forall_mem_singleton]
    exact ⟨trivial, conn_store_calls _ _ _ _⟩
  · exact conn_store_calls _ _ _ _

theorem conn_echo_calls (s : State) (w : Wake) :
    ∀ c ∈ (conn_echo s w).2, Call.on_conn w.fd c := by
  unfold conn_echo
  simp only [after_snd, List.forall_mem_append, List.forall_mem_singleton]
  refine ⟨rfl, ?_⟩
  split_ifs
  · exact conn_keep_calls _ _ _
  · simp [Call.on_conn]
  · exact conn_keep_calls _ _ _

theorem conn_in_calls (s : State) (w : Wake) : ∀ c ∈ (conn_in s w).2, Call.on_conn w.fd c := by
  unfold conn_in
  split_ifs
  · simp [Call.on_conn]
  · simp [Call.on_conn]
  · simp only [after_snd, List.forall_mem_append, List.forall_mem_singleton]
    exact ⟨rfl, conn_echo_calls _ _⟩

theorem conn_drain_calls (s : State) (w : Wake) (slot : iobuf) (retval : Int) :
    ∀ c ∈ (conn_drain s w slot retval).2, Call.on_conn w.fd c := by
  unfold conn_drain
  repeat' split
  all_goals simp [Call.on_conn]

theorem conn_out_calls (s : State) (w : Wake) : ∀ c ∈ (conn_out s w).2, Call.on_conn w.fd c := by
  unfold conn_out
  split
  · simp
  · split
    · simp
    · simp only [after_snd, List.forall_mem_append, List.forall_mem_singleton]
      refine ⟨rfl, ?_⟩
      split_ifs
      · exact conn_drain_calls _ _ _ _
      · split <;> simp [Call.on_conn]
      · exact conn_drain_calls _ _ _ _

theorem conn_store_no_exit (s : State) (w : Wake) (retval len st : Int) :
    (conn_store s w retval len).1 ≠ Outcome.exit st := by
  unfold conn_store
  dsimp only
  repeat' split
  all_goals simp

theorem conn_keep_no_exit (s : State) (w : Wake) (retval st : Int) :
    (conn_keep s w retval).1 ≠ Outcome.exit st := by
  unfold conn_keep
  split_ifs
  · simp
  · simp
  · exact conn_store_no_exit _ _ _ _ _
  · exact conn_store_no_exit _ _ _ _ _

theorem conn_in_no_exit (s : State) (w : Wake) (st : Int) :
    (conn_in s w).1 ≠ Outcome.exit st := by
  unfold conn_in conn_echo
  split_ifs
  · simp
  · simp
  · exact conn_keep_no_exit _ _ _ _
  · simp [after]
  · exact conn_keep_no_exit _ _ _ _

theorem conn_drain_no_exit (s : State) (w : Wake) (slot : iobuf) (retval st : Int) :
    (conn_drain s w slot retval).1 ≠ Outcome.exit st := by
  unfold conn_drain
  repeat' split
  all_goals simp

theorem conn_out_no_exit (s : State) (w : Wake) (st : Int) :
    (conn_out s w).1 ≠ Outcome.exit st := by
  unfold conn_out
  split
  · simp
  · split
    · simp
    · rw [after_fst]
      split_ifs
      · exact conn_drain_no_exit _ _ _ _ _
      · split <;> simp
      · exact conn_drain_no_exit _ _ _ _ _

theorem on_conn_not_signal (fd : Int) (l : List Call) (h : ∀ c ∈ l, Call.on_conn fd c) :
    Call.read_signal SIZEOF_SSI SIGTERM ∉ l := fun hm => h _ hm

theorem dispatch_sigterm_iff (s : State) (w : Wake) :
    Call.read_signal SIZEOF_SSI SIGTERM ∈ (dispatch s w).2 ↔
      (dispatch s w).1 = Outcome.exit EXIT_SUCCESS := by
  unfold dispatch
  dsimp only
  split_ifs <;> first
    | exact ⟨fun h => absurd h (on_conn_not_signal _ _ (conn_in_calls s w)),
        fun h => absurd h (conn_in_no_exit s w _)⟩
    | exact ⟨fun h => absurd h (on_conn_not_signal _ _ (conn_out_calls s w)),
        fun h => absurd h (conn_out_no_exit s w _)⟩
    | (simp only [List.mem_append, List.mem_singleton, List.mem_cons, List.not_mem_nil,
        Call.read_signal.injEq, Outcome.exit.injEq, EXIT_SUCCESS, EXIT_FAILURE, SIZEOF_SSI,
        SIGTERM, SIGHUP, reduceCtorEq, or_false, false_or, iff_false, false_iff, ne_eq,
        not_not] at *
       first
         | omega
         | exact ⟨fun _ => trivial, fun _ => ⟨by omega, by omega⟩⟩
         | skip)

theorem dispatch_exit_status (s : State) (w : Wake) (st : Int)
    (h : (dispatch s w).1 = Outcome.exit st) : st = EXIT_SUCCESS ∨ st = EXIT_FAILURE := by
  unfold dispatch at h
  dsimp only at h
  split_ifs at h <;> first
    | exact absurd h (conn_in_no_exit s w _)
    | exact absurd h (conn_out_no_exit s w _)
    | (simp only [Outcome.exit.injEq, reduceCtorEq] at h
       first
         | exact Or.inl h.symm
         | exact Or.inr h.symm)

theorem loop_body_sigterm_iff (s : State) (w : Wake) :
    Call.read_signal SIZEOF_SSI SIGTERM ∈ (loop_body s w).2 ↔
      (loop_body s w).1 = Outcome.exit EXIT_SUCCESS := by
  unfold loop_body
  split_ifs
  · simp
  · simp only [List.mem_cons, false_or]
    simpa using dispatch_sigterm_iff s w

theorem loop_body_exit_status (s : State) (w : Wake) (st : Int)
    (h : (loop_body s w).1 = Outcome.exit st) : st = EXIT_SUCCESS ∨ st = EXIT_FAILURE := by
  unfold loop_body at h
  split_ifs at h
  exact dispatch_exit_status s w st h

theorem loop_sigterm_iff (ws : List Wake) (s : State) :
    Call.read_signal SIZEOF_SSI SIGTERM ∈ (loop s ws).2 ↔
      (loop s ws).1 = Outcome.exit EXIT_SUCCESS := by
  induction ws generalizing s with
  | nil => simp [loop]
  | cons w ws ih =>
    have hb := loop_body_sigterm_iff s w
    unfold loop
    rcases hlb : loop_body s w with ⟨o, l⟩
    rw [hlb] at hb
    cases o with
    | cont s' =>
      simp only [List.mem_append]
      have : Call.read_signal SIZEOF_SSI SIGTERM ∉ l := fun hm => by
        have := hb.1 hm
        simp at this
      rw [← ih s']
      simp [this]
    | exit st => simpa using hb
    | fault => simpa using hb

theorem loop_exit_status (ws : List Wake) (s : State) (st : Int)
    (h : (loop s ws).1 = Outcome.exit st) : st = EXIT_SUCCESS ∨ st = EXIT_FAILURE := by
  induction ws generalizing s with
  | nil => simp [loop] at h
  | cons w ws ih =>
    have hb := loop_body_exit_status s w
    unfold loop at h
    rcases hlb : loop_body s w with ⟨o, l⟩
    rw [hlb] at hb h
    cases o with
    | cont s' => exact ih s' h
    | exit st' => exact hb st (by simpa using h)
    | fault => simp at h

theorem main_sigterm_iff (env : BootEnv) (ws : List Wake) :
    Call.read_signal SIZEOF_SSI SIGTERM ∈ (main env ws).2 ↔
      (main env ws).1 = Outcome.exit EXIT_SUCCESS := by
  have hc := startup_calls env
  have he := startup_exit env
  unfold main
  rcases hs : startup env with ⟨o, l⟩
  rw [hs] at hc he
  have hl : Call.read_signal SIZEOF_SSI SIGTERM ∉ l := fun hm => hc _ hm
  cases o with
  | cont s =>
    simp only [List.mem_append]
    rw [← loop_sigterm_iff ws s]
    simp [hl]
  | exit st =>
    rcases he with ⟨s, h⟩ | h
    · simp at h
    · simp at h
      simp [hl, h, EXIT_SUCCESS, EXIT_FAILURE]
  | fault => simp [hl]

theorem main_exit_status (env : BootEnv) (ws : List Wake) (st : Int)
    (h : (main env ws).1 = Outcome.exit st) : st = EXIT_SUCCESS ∨ st = EXIT_FAILURE := by
  have he := startup_exit env
  unfold main at h
  rcases hs : startup env with ⟨o, l⟩
  rw [hs] at he h
  cases o with
  | cont s => exact loop_exit_status ws s st h
  | exit st' =>
    rcases he with ⟨s, h'⟩ | h'
    · simp at h'
    · simp at h' h
      right; rw [← h, h']
  | fault => simp at h

theorem startup_reject (env : BootEnv)
    (h : 2 < env.sd_listen_fds ∨
      classify_fds env env.sd_listen_fds.toNat SD_LISTEN_FDS_START (-1) (-1) = none) :
    (startup env).1 = Outcome.exit EXIT_FAILURE ∧
    ∀ c ∈ (startup env).2, c.makes_socket = false ∧ c.is_wait = false := by
  unfold startup
  dsimp only
  split_ifs with h1 h2 h3 h4 h5 h6 <;>
    try (exact ⟨rfl, by simp [Call.makes_socket, Call.is_wait]⟩)
  rcases h with h | h
  · omega
  · rw [h]
    exact ⟨rfl, by simp [Call.makes_socket, Call.is_wait]⟩

theorem classify_fds_step (env : BootEnv) (n : Nat) (fd listen_fd dgram_fd : Int) :
    classify_fds env (n + 1) fd listen_fd dgram_fd =
      match fd_kind env fd with
      | SockKind.stream =>
        if listen_fd ≥ 0 then none else classify_fds env n (fd + 1) fd dgram_fd
      | SockKind.dgram =>
        if dgram_fd ≥ 0 then none else classify_fds env n (fd + 1) listen_fd fd
      | _ => none := by
  unfold fd_kind
  rw [classify_fds]
  dsimp only
  split_ifs <;> first | rfl | omega

theorem classify_one_none (env : BootEnv)
    (hk : fd_kind env 3 = SockKind.neither ∨ fd_kind env 3 = SockKind.error) :
    classify_fds env 1 3 (-1) (-1) = none := by
  rw [classify_fds_step]
  rcases hk with hk | hk <;> rw [hk]

theorem classify_two_none (env : BootEnv)
    (h : (fd_kind env 3 = SockKind.stream ∧ fd_kind env 4 = SockKind.stream) ∨
      (fd_kind env 3 = SockKind.dgram ∧ fd_kind env 4 = SockKind.dgram) ∨
      (fd_kind env 3 = SockKind.neither ∨ fd_kind env 3 = SockKind.error) ∨
      (fd_kind env 4 = SockKind.neither ∨ fd_kind env 4 = SockKind.error)) :
    classify_fds env 2 3 (-1) (-1) = none := by
  have e34 : (3 : Int) + 1 = 4 := rfl
  rw [classify_fds_step, e34]
  rcases h with ⟨h3, h4⟩ | ⟨h3, h4⟩ | h3 | h4
  · rw [h3]
    dsimp only
    rw [classify_fds_step, h4]
    simp
  · rw [h3]
    dsimp only
    rw [classify_fds_step, h4]
    simp
  · rcases h3 with h3 | h3 <;> rw [h3]
  · cases h3 : fd_kind env 3 <;> dsimp only
    · rw [classify_fds_step]
      rcases h4 with h4 | h4 <;> rw [h4] <;> simp
    · rw [classify_fds_step]
      rcases h4 with h4 | h4 <;> rw [h4] <;> simp

theorem classify_fds_reject (env : BootEnv) (h0 : 0 ≤ env.sd_listen_fds)
    (h2 : env.sd_listen_fds ≤ 2)
    (h : (env.sd_listen_fds = 2 ∧ fd_kind env 3 = SockKind.stream ∧
          fd_kind env 4 = SockKind.stream) ∨
      (env.sd_listen_fds = 2 ∧ fd_kind env 3 = SockKind.dgram ∧
          fd_kind env 4 = SockKind.dgram) ∨
      (∃ fd, 3 ≤ fd ∧ fd < 3 + env.sd_listen_fds ∧
        (fd_kind env fd = SockKind.neither ∨ fd_kind env fd = SockKind.error))) :
    classify_fds env env.sd_listen_fds.toNat SD_LISTEN_FDS_START (-1) (-1) = none := by
  rcases h with ⟨hh, h3, h4⟩ | ⟨hh, h3, h4⟩ | ⟨fd, hlo, hhi, hk⟩
  · rw [hh]
    exact classify_two_none env (Or.inl ⟨h3, h4⟩)
  · rw [hh]
    exact classify_two_none env (Or.inr (Or.inl ⟨h3, h4⟩))
  · have hcases : env.sd_listen_fds = 1 ∨ env.sd_listen_fds = 2 := by omega
    rcases hcases with hn | hn
    · have : fd = 3 := by omega
      subst this
      rw [hn]
      exact classify_one_none env hk
    · have : fd = 3 ∨ fd = 4 := by omega
      rw [hn]
      rcases this with rfl | rfl
      · exact classify_two_none env (Or.inr (Or.inr (Or.inl hk)))
      · exact classify_two_none env (Or.inr (Or.inr (Or.inr hk)))

/-! ## The table invariant is preserved -/

theorem inv_idle (s s' : State) (fd0 : Int) (r : Option Nat) (hinv : Inv s) (h0 : 0 ≤ fd0)
    (hreg0 : s.reg fd0 ≠ some EPOLLOUT) (hr : r = none ∨ r = some EPOLLIN)
    (hreg : s'.reg = Function.update s.reg fd0 r) (hheap : s'.heap = s.heap)
    (hbrk : s.brk ≤ s'.brk) (hlen : s'.iob.length = s.iob.length)
    (hslot : ∀ j : Nat, j ≠ fd0.toNat → s'.iob[j]? = s.iob[j]?)
    (hnew : ∀ slot : iobuf, s'.iob[fd0.toNat]? = some slot →
      s.heap slot.head.blk = none ∧ s.heap slot.data.blk = none ∧
      slot.head.blk < s'.brk ∧ slot.data.blk < s'.brk) :
    Inv s' ∧ Frame s s' fd0 := by
  have hrOUT : r ≠ some EPOLLOUT := by
    rcases hr with rfl | rfl <;> simp [EPOLLIN, EPOLLOUT]
  have hregne : ∀ fd, fd ≠ fd0 → s'.reg fd = s.reg fd := by
    intro fd hfd
    rw [hreg, Function.update_noteq hfd]
  have hreg0' : s'.reg fd0 = r := by rw [hreg, Function.update_same]
  constructor
  · constructor
    · exact lt_of_lt_of_le hinv.brk_pos hbrk
    · intro b hb
      rw [hheap] at hb
      have := hinv.heap_lt b hb
      omega
    · intro i slot hi
      by_cases hi0 : i = fd0.toNat
      · subst hi0
        exact ⟨(hnew slot hi).2.2.1, (hnew slot hi).2.2.2⟩
      · rw [hslot i hi0] at hi
        have := hinv.ptr_lt i slot hi
        omega
    · intro fd m hfd
      by_cases hfd0 : fd = fd0
      · subst hfd0
        rw [hreg0'] at hfd
        rcases hr with rfl | rfl
        · simp at hfd
        · simp at hfd
          exact ⟨h0, Or.inl hfd.symm⟩
      · rw [hregne fd hfd0] at hfd
        exact hinv.reg_ok fd m hfd
    · intro fd hfd
      have hfd0 : fd ≠ fd0 := by
        rintro rfl
        rw [hreg0'] at hfd
        exact hrOUT hfd
      rw [hregne fd hfd0] at hfd
      have hpos := (hinv.reg_ok fd _ hfd).1
      obtain ⟨slot, b, h1, h2⟩ := hinv.writing fd hfd
      refine ⟨slot, b, ?_, ?_⟩
      · rw [hslot _ (by omega)]; exact h1
      · rw [hheap]; exact h2
    · intro i slot hi hs
      rw [hheap]
      by_cases hi0 : i = fd0.toNat
      · subst hi0
        exact ⟨(hnew slot hs).1, (hnew slot hs).2.1⟩
      · rw [hslot i hi0] at hs
        rw [hregne _ (by omega)] at hi
        exact hinv.idle i slot hi hs
    · intro i j si sj hij hi hj hlive
      rw [hheap] at hlive
      have hi0 : i ≠ fd0.toNat := by
        rintro rfl
        exact hlive (hnew si hi).1
      rw [hslot i hi0] at hi
      by_cases hj0 : j = fd0.toNat
      · subst hj0
        intro e
        rw [← e] at hlive
        exact hlive (hnew sj hj).1
      · rw [hslot j hj0] at hj
        exact hinv.owner i j si sj hij hi hj hlive
    · intro b hb
      rw [hheap] at hb
      obtain ⟨i, slot, hi, hbl⟩ := hinv.owned b hb
      have hi0 : i ≠ fd0.toNat := by
        rintro rfl
        have := (hinv.idle fd0.toNat slot (by
          have : ((fd0.toNat : Nat) : Int) = fd0 := by omega
          rw [this]; exact hreg0) hi).1
        rw [hbl] at this
        exact hb this
      exact ⟨i, slot, by rw [hslot i hi0]; exact hi, hbl⟩
  · constructor
    · exact hregne
    · intro j hj _
      exact hslot j hj
    · omega
    · intro j slot _ hlen' hs
      have : s'.iob[j]? = none := List.getElem?_eq_none (by omega)
      rw [this] at hs
      cases hs
    · intro j slot _ _
      rw [hheap]
      exact ⟨rfl, rfl⟩

theorem set_slot_self (l : List iobuf) (i : Nat) (x : iobuf) (h : l[i]? = some x) :
    l.set i x = l := by
  apply List.ext_getElem?
  intro j
  rw [List.getElem?_set]
  by_cases hij : i = j
  · subst hij
    have hlt : i < l.length := by
      by_contra hc
      rw [List.getElem?_eq_none (by omega)] at h
      cases h
    simp [hlt, h]
  · simp [hij]

theorem inv_store (s s' : State) (fd0 : Int) (bytes : List Byte) (hinv : Inv s) (h0 : 0 ≤ fd0)
    (hreg0 : s.reg fd0 ≠ some EPOLLOUT) (hin : fd0.toNat < s.iob.length)
    (hreg : s'.reg = Function.update s.reg fd0 (some EPOLLOUT))
    (hheap : s'.heap = Function.update s.heap s.brk (some bytes))
    (hbrk : s'.brk = s.brk + 1)
    (hiob : s'.iob = s.iob.set fd0.toNat ⟨⟨s.brk, 0⟩, ⟨s.brk, 0⟩, bytes.length⟩)
    (hlen1 : 1 ≤ bytes.length) (hlen2 : bytes.length ≤ BUFSZ) :
    Inv s' ∧ Frame s s' fd0 := by
  have hregne : ∀ fd, fd ≠ fd0 → s'.reg fd = s.reg fd := by
    intro fd hfd
    rw [hreg, Function.update_noteq hfd]
  have hreg0' : s'.reg fd0 = some EPOLLOUT := by rw [hreg, Function.update_same]
  have hslot : ∀ j : Nat, j ≠ fd0.toNat → s'.iob[j]? = s.iob[j]? := by
    intro j hj
    rw [hiob, List.getElem?_set_ne (Ne.symm hj)]
  have hslot0 : s'.iob[fd0.toNat]? = some ⟨⟨s.brk, 0⟩, ⟨s.brk, 0⟩, bytes.length⟩ := by
    rw [hiob, List.getElem?_set_self hin]
  have hbrk_dead : s.heap s.brk = none := by
    by_contra hc
    have := hinv.heap_lt _ hc
    omega
  have hheap_old : ∀ b, b ≠ s.brk → s'.heap b = s.heap b := by
    intro b hb
    rw [hheap, Function.update_noteq hb]
  have hheap_new : s'.heap s.brk = some bytes := by rw [hheap, Function.update_same]
  have hold_dead : ∀ slot : iobuf, s.iob[fd0.toNat]? = some slot →
      s.heap slot.head.blk = none := by
    intro slot hs
    exact (hinv.idle fd0.toNat slot (by
      have : ((fd0.toNat : Nat) : Int) = fd0 := by omega
      rw [this]; exact hreg0) hs).1
  constructor
  · constructor
    · have := hinv.brk_pos; omega
    · intro b hb
      by_cases hbb : b = s.brk
      · have := hinv.brk_pos; omega
      · rw [hheap_old b hbb] at hb
        have := hinv.heap_lt b hb
        omega
    · intro i slot hi
      by_cases hi0 : i = fd0.toNat
      · subst hi0
        rw [hslot0] at hi
        cases hi
        simp [hbrk]
      · rw [hslot i hi0] at hi
        have := hinv.ptr_lt i slot hi
        omega
    · intro fd m hfd
      by_cases hfd0 : fd = fd0
      · subst hfd0
        rw [hreg0'] at hfd
        cases hfd
        exact ⟨h0, Or.inr rfl⟩
      · rw [hregne fd hfd0] at hfd
        exact hinv.reg_ok fd m hfd
    · intro fd hfd
      by_cases hfd0 : fd = fd0
      · subst hfd0
        exact ⟨_, bytes, hslot0, hheap_new, rfl, rfl, hlen1, hlen2, by simp⟩
      · rw [hregne fd hfd0] at hfd
        have hpos := (hinv.reg_ok fd _ hfd).1
        obtain ⟨slot, b, h1, h2, h3⟩ := hinv.writing fd hfd
        refine ⟨slot, b, ?_, ?_, h3⟩
        · rw [hslot _ (by omega)]; exact h1
        · rw [hheap_old]
          · exact h2
          · have := (hinv.ptr_lt _ slot h1).1
            omega
    · intro i slot hi hs
      have hi0 : i ≠ fd0.toNat := by
        rintro rfl
        have : ((fd0.toNat : Nat) : Int) = fd0 := by omega
        rw [this] at hi
        exact hi hreg0'
      rw [hslot i hi0] at hs
      rw [hregne _ (by omega)] at hi
      have hp := hinv.ptr_lt i slot hs
      rw [hheap_old _ (by omega), hheap_old _ (by omega)]
      exact hinv.idle i slot hi hs
    · intro i j si sj hij hi hj hlive
      by_cases hi0 : i = fd0.toNat
      · subst hi0
        rw [hslot0] at hi
        cases hi
        have hj0 : j ≠ fd0.toNat := fun e => hij e.symm
        rw [hslot j hj0] at hj
        have := (hinv.ptr_lt j sj hj).1
        simp only
        omega
      · rw [hslot i hi0] at hi
        have hp := (hinv.ptr_lt i si hi).1
        rw [hheap_old _ (by omega)] at hlive
        by_cases hj0 : j = fd0.toNat
        · subst hj0
          rw [hslot0] at hj
          cases hj
          simp only
          omega
        · rw [hslot j hj0] at hj
          exact hinv.owner i j si sj hij hi hj hlive
    · intro b hb
      by_cases hbb : b = s.brk
      · exact ⟨fd0.toNat, _, hslot0, hbb.symm⟩
      · rw [hheap_old b hbb] at hb
        obtain ⟨i, slot, hi, hbl⟩ := hinv.owned b hb
        have hi0 : i ≠ fd0.toNat := by
          rintro rfl
          have := hold_dead slot hi
          rw [hbl] at this
          exact hb this
        exact ⟨i, slot, by rw [hslot i hi0]; exact hi, hbl⟩
  · constructor
    · exact hregne
    · intro j hj _
      exact hslot j hj
    · rw [hiob, List.length_set]
    · intro j slot _ hlen' hs
      have : s'.iob[j]? = none := List.getElem?_eq_none (by rw [hiob, List.length_set]; omega)
      rw [this] at hs
      cases hs
    · intro j slot _ hs
      have hp := hinv.ptr_lt j slot hs
      rw [hheap_old _ (by omega), hheap_old _ (by omega)]
      exact ⟨rfl, rfl⟩

theorem inv_free (s s' : State) (fd0 : Int) (slot slot' : iobuf) (r : Option Nat)
    (hinv : Inv s) (hreg0 : s.reg fd0 = some EPOLLOUT) (hslot0 : s.iob[fd0.toNat]? = some slot)
    (hr : r = none ∨ r = some EPOLLIN)
    (hreg : s'.reg = Function.update s.reg fd0 r)
    (hheap : s'.heap = Function.update s.heap slot.head.blk none)
    (hbrk : s'.brk = s.brk)
    (hiob : s'.iob = s.iob.set fd0.toNat slot')
    (hhead : slot'.head = slot.head) (hdata : slot'.data.blk = slot.data.blk) :
    Inv s' ∧ Frame s s' fd0 := by
  have h0 : 0 ≤ fd0 := (hinv.reg_ok fd0 _ hreg0).1
  have hcast : ((fd0.toNat : Nat) : Int) = fd0 := by omega
  obtain ⟨slot1, b0, hw1, hw2, hw3, hw4, -⟩ := hinv.writing fd0 hreg0
  rw [hslot0] at hw1
  cases hw1
  have hin : fd0.toNat < s.iob.length := by
    by_contra hc
    rw [List.getElem?_eq_none (by omega)] at hslot0
    cases hslot0
  have hrOUT : r ≠ some EPOLLOUT := by
    rcases hr with rfl | rfl <;> simp [EPOLLIN, EPOLLOUT]
  have hregne : ∀ fd, fd ≠ fd0 → s'.reg fd = s.reg fd := by
    intro fd hfd
    rw [hreg, Function.update_noteq hfd]
  have hreg0' : s'.reg fd0 = r := by rw [hreg, Function.update_same]
  have hslot : ∀ j : Nat, j ≠ fd0.toNat → s'.iob[j]? = s.iob[j]? := by
    intro j hj
    rw [hiob, List.getElem?_set_ne (Ne.symm hj)]
  have hslot0' : s'.iob[fd0.toNat]? = some slot' := by
    rw [hiob, List.getElem?_set_self hin]
  have hheap_old : ∀ b, b ≠ slot.head.blk → s'.heap b = s.heap b := by
    intro b hb
    rw [hheap, Function.update_noteq hb]
  have hheap_new : s'.heap slot.head.blk = none := by rw [hheap, Function.update_same]
  have hsub : ∀ b, s'.heap b ≠ none → s.heap b ≠ none ∧ b ≠ slot.head.blk := by
    intro b hb
    by_cases hbb : b = slot.head.blk
    · rw [hbb] at hb
      exact absurd hheap_new hb
    · rw [hheap_old b hbb] at hb
      exact ⟨hb, hbb⟩
  have hlive0 : s.heap slot.head.blk ≠ none := by rw [hw2]; simp
  have hother : ∀ (j : Nat) (sj : iobuf), j ≠ fd0.toNat → s.iob[j]? = some sj →
      sj.head.blk ≠ slot.head.blk := by
    intro j sj hj hsj
    exact hinv.owner fd0.toNat j slot sj (Ne.symm hj) hslot0 hsj hlive0
  constructor
  · constructor
    · rw [hbrk]; exact hinv.brk_pos
    · intro b hb
      rw [hbrk]
      exact hinv.heap_lt b (hsub b hb).1
    · intro i sl hi
      rw [hbrk]
      by_cases hi0 : i = fd0.toNat
      · subst hi0
        rw [hslot0'] at hi
        cases hi
        rw [hhead, hdata]
        exact hinv.ptr_lt _ slot hslot0
      · rw [hslot i hi0] at hi
        exact hinv.ptr_lt i sl hi
    · intro fd m hfd
      by_cases hfd0 : fd = fd0
      · subst hfd0
        rw [hreg0'] at hfd
        rcases hr with rfl | rfl
        · simp at hfd
        · simp at hfd
          exact ⟨h0, Or.inl hfd.symm⟩
      · rw [hregne fd hfd0] at hfd
        exact hinv.reg_ok fd m hfd
    · intro fd hfd
      have hfd0 : fd ≠ fd0 := by
        rintro rfl
        rw [hreg0'] at hfd
        exact hrOUT hfd
      rw [hregne fd hfd0] at hfd
      have hpos := (hinv.reg_ok fd _ hfd).1
      obtain ⟨sl, b, h1, h2, h3⟩ := hinv.writing fd hfd
      refine ⟨sl, b, ?_, ?_, h3⟩
      · rw [hslot _ (by omega)]; exact h1
      · rw [hheap_old _ (hother _ sl (by omega) h1)]
        exact h2
    · intro i sl hi hs
      by_cases hi0 : i = fd0.toNat
      · subst hi0
        rw [hslot0'] at hs
        cases hs
        rw [hdata, hw4, hhead]
        exact ⟨hheap_new, hheap_new⟩
      · rw [hslot i hi0] at hs
        rw [hregne _ (by omega)] at hi
        have hd := hinv.idle i sl hi hs
        constructor
        · by_cases e : sl.head.blk = slot.head.blk
          · rw [e]; exact hheap_new
          · rw [hheap_old _ e]; exact hd.1
        · by_cases e : sl.data.blk = slot.head.blk
          · rw [e]; exact hheap_new
          · rw [hheap_old _ e]; exact hd.2
    · intro i j si sj hij hi hj hlive
      have hl := hsub _ hlive
      have hi0 : i ≠ fd0.toNat := by
        rintro rfl
        rw [hslot0'] at hi
        cases hi
        rw [hhead] at hl
        exact hl.2 rfl
      rw [hslot i hi0] at hi
      by_cases hj0 : j = fd0.toNat
      · subst hj0
        rw [hslot0'] at hj
        cases hj
        rw [hhead]
        exact fun e => hl.2 e.symm
      · rw [hslot j hj0] at hj
        exact hinv.owner i j si sj hij hi hj hl.1
    · intro b hb
      have hl := hsub b hb
      obtain ⟨i, sl, hi, hbl⟩ := hinv.owned b hl.1
      have hi0 : i ≠ fd0.toNat := by
        rintro rfl
        rw [hslot0] at hi
        cases hi
        exact hl.2 hbl.symm
      exact ⟨i, sl, by rw [hslot i hi0]; exact hi, hbl⟩
  · constructor
    · exact hregne
    · intro j hj _
      exact hslot j hj
    · rw [hiob, List.length_set]
    · intro j sl _ hlen' hs
      have : s'.iob[j]? = none := List.getElem?_eq_none (by rw [hiob, List.length_set]; omega)
      rw [this] at hs
      cases hs
    · intro j sl hj hs
      have hne := hother j sl hj hs
      refine ⟨hheap_old _ hne, ?_⟩
      by_cases e : sl.data.blk = slot.head.blk
      · -- the other slot is not writing, so its data pointer is stale and dead
        by_cases hw : s.reg (j : Int) = some EPOLLOUT
        · obtain ⟨sl2, b2, g1, g2, g3, g4, -⟩ := hinv.writing _ hw
          simp only [Int.toNat_ofNat] at g1
          rw [hs] at g1
          cases g1
          rw [g4] at e
          exact absurd e hne
        · have hd := (hinv.idle j sl hw hs).2
          rw [e] at hd ⊢
          exact absurd hd hlive0
      · exact hheap_old _ e

theorem inv_advance (s s' : State) (fd0 : Int) (slot : iobuf) (k : Nat)
    (hinv : Inv s) (hreg0 : s.reg fd0 = some EPOLLOUT) (hslot0 : s.iob[fd0.toNat]? = some slot)
    (hk : k < slot.len)
    (hreg : s'.reg = s.reg) (hheap : s'.heap = s.heap) (hbrk : s'.brk = s.brk)
    (hiob : s'.iob = s.iob.set fd0.toNat
      { slot with len := slot.len - k, data := ⟨slot.data.blk, slot.data.off + k⟩ }) :
    Inv s' ∧ Frame s s' fd0 := by
  have h0 : 0 ≤ fd0 := (hinv.reg_ok fd0 _ hreg0).1
  have hcast : ((fd0.toNat : Nat) : Int) = fd0 := by omega
  obtain ⟨slot1, b0, hw1, hw2, hw3, hw4, hw5, hw6, hw7⟩ := hinv.writing fd0 hreg0
  rw [hslot0] at hw1
  cases hw1
  have hin : fd0.toNat < s.iob.length := by
    by_contra hc
    rw [List.getElem?_eq_none (by omega)] at hslot0
    cases hslot0
  have hslot : ∀ j : Nat, j ≠ fd0.toNat → s'.iob[j]? = s.iob[j]? := by
    intro j hj
    rw [hiob, List.getElem?_set_ne (Ne.symm hj)]
  have hslot0' : s'.iob[fd0.toNat]? =
      some { slot with len := slot.len - k, data := ⟨slot.data.blk, slot.data.off + k⟩ } := by
    rw [hiob, List.getElem?_set_self hin]
  have hlive0 : s.heap slot.head.blk ≠ none := by rw [hw2]; simp
  constructor
  · constructor
    · rw [hbrk]; exact hinv.brk_pos
    · intro b hb
      rw [hbrk]
      rw [hheap] at hb
      exact hinv.heap_lt b hb
    · intro i sl hi
      rw [hbrk]
      by_cases hi0 : i = fd0.toNat
      · subst hi0
        rw [hslot0'] at hi
        cases hi
        exact hinv.ptr_lt _ slot hslot0
      · rw [hslot i hi0] at hi
        exact hinv.ptr_lt i sl hi
    · intro fd m hfd
      rw [hreg] at hfd
      exact hinv.reg_ok fd m hfd
    · intro fd hfd
      rw [hreg] at hfd
      rw [hheap]
      by_cases hfd0 : fd = fd0
      · subst hfd0
        refine ⟨_, b0, hslot0', hw2, hw3, hw4, ?_, ?_, ?_⟩
        · simp only; omega
        · simp only; omega
        · simp only; omega
      · have hpos := (hinv.reg_ok fd _ hfd).1
        obtain ⟨sl, b, h1, h2⟩ := hinv.writing fd hfd
        exact ⟨sl, b, by rw [hslot _ (by omega)]; exact h1, h2⟩
    · intro i sl hi hs
      rw [hreg] at hi
      rw [hheap]
      have hi0 : i ≠ fd0.toNat := by
        rintro rfl
        rw [hcast] at hi
        exact hi hreg0
      rw [hslot i hi0] at hs
      exact hinv.idle i sl hi hs
    · intro i j si sj hij hi hj hlive
      rw [hheap] at hlive
      by_cases hi0 : i = fd0.toNat
      · subst hi0
        rw [hslot0'] at hi
        cases hi
        have hj0 : j ≠ fd0.toNat := fun e => hij e.symm
        rw [hslot j hj0] at hj
        exact hinv.owner _ j slot sj hij hslot0 hj hlive
      · rw [hslot i hi0] at hi
        by_cases hj0 : j = fd0.toNat
        · subst hj0
          rw [hslot0'] at hj
          cases hj
          exact hinv.owner i _ si slot hij hi hslot0 hlive
        · rw [hslot j hj0] at hj
          exact hinv.owner i j si sj hij hi hj hlive
    · intro b hb
      rw [hheap] at hb
      obtain ⟨i, sl, hi, hbl⟩ := hinv.owned b hb
      by_cases hi0 : i = fd0.toNat
      · subst hi0
        rw [hslot0] at hi
        cases hi
        exact ⟨_, _, hslot0', hbl⟩
      · exact ⟨i, sl, by rw [hslot i hi0]; exact hi, hbl⟩
  · constructor
    · intro fd _
      rw [hreg]
    · intro j hj _
      exact hslot j hj
    · rw [hiob, List.length_set]
    · intro j sl _ hlen' hs
      have : s'.iob[j]? = none := List.getElem?_eq_none (by rw [hiob, List.length_set]; omega)
      rw [this] at hs
      cases hs
    · intro j sl _ _
      rw [hheap]
      exact ⟨rfl, rfl⟩

theorem inv_grow (s s' : State) (fd0 : Int) (n : Nat) (hinv : Inv s)
    (hreg : s'.reg = s.reg) (hheap : s'.heap = s.heap) (hbrk : s'.brk = s.brk)
    (hiob : s'.iob = s.iob ++ List.replicate n iobuf.zero) :
    Inv s' ∧ Frame s s' fd0 := by
  have hzero_dead : s.heap 0 = none := by
    by_contra hc
    have := hinv.heap_lt 0 hc
    omega
  have hget : ∀ (j : Nat) (sl : iobuf), s'.iob[j]? = some sl →
      s.iob[j]? = some sl ∨ (s.iob.length ≤ j ∧ sl = iobuf.zero) := by
    intro j sl hs
    rw [hiob] at hs
    by_cases hj : j < s.iob.length
    · rw [List.getElem?_append_left hj] at hs
      exact Or.inl hs
    · rw [List.getElem?_append_right (by omega), List.getElem?_replicate] at hs
      split_ifs at hs
      cases hs
      exact Or.inr ⟨by omega, rfl⟩
  have hold : ∀ (j : Nat), j < s.iob.length → s'.iob[j]? = s.iob[j]? := by
    intro j hj
    rw [hiob, List.getElem?_append_left hj]
  have hold' : ∀ (j : Nat) (sl : iobuf), s.iob[j]? = some sl → s'.iob[j]? = some sl := by
    intro j sl hs
    have hj : j < s.iob.length := by
      by_contra hc
      rw [List.getElem?_eq_none (by omega)] at hs
      cases hs
    rw [hold j hj]; exact hs
  constructor
  · constructor
    · rw [hbrk]; exact hinv.brk_pos
    · intro b hb
      rw [hbrk]
      rw [hheap] at hb
      exact hinv.heap_lt b hb
    · intro i sl hi
      rw [hbrk]
      rcases hget i sl hi with h | ⟨-, rfl⟩
      · exact hinv.ptr_lt i sl h
      · exact ⟨hinv.brk_pos, hinv.brk_pos⟩
    · intro fd m hfd
      rw [hreg] at hfd
      exact hinv.reg_ok fd m hfd
    · intro fd hfd
      rw [hreg] at hfd
      rw [hheap]
      obtain ⟨sl, b, h1, h2⟩ := hinv.writing fd hfd
      exact ⟨sl, b, hold' _ _ h1, h2⟩
    · intro i sl hi hs
      rw [hreg] at hi
      rw [hheap]
      rcases hget i sl hs with h | ⟨-, rfl⟩
      · exact hinv.idle i sl hi h
      · exact ⟨hzero_dead, hzero_dead⟩
    · intro i j si sj hij hi hj hlive
      rw [hheap] at hlive
      rcases hget i si hi with h | ⟨-, rfl⟩
      · rcases hget j sj hj with h' | ⟨-, rfl⟩
        · exact hinv.owner i j si sj hij h h' hlive
        · intro e
          rw [← e] at hlive
          exact hlive hzero_dead
      · exact absurd hzero_dead hlive
    · intro b hb
      rw [hheap] at hb
      obtain ⟨i, sl, hi, hbl⟩ := hinv.owned b hb
      exact ⟨i, sl, hold' _ _ hi, hbl⟩
  · constructor
    · intro fd _
      rw [hreg]
    · intro j _ hj
      exact hold j hj
    · rw [hiob, List.length_append]; omega
    · intro j sl _ hlen' hs
      rcases hget j sl hs with h | ⟨-, rfl⟩
      · rw [List.getElem?_eq_none hlen'] at h
        cases h
      · rfl
    · intro j sl _ _
      rw [hheap]
      exact ⟨rfl, rfl⟩

theorem frame_refl (s : State) (fd0 : Int) : Frame s s fd0 := by
  constructor
  · intro _ _; rfl
  · intro _ _ _; rfl
  · exact le_refl _
  · intro j slot _ h hs
    rw [List.getElem?_eq_none h] at hs
    cases hs
  · intro _ _ _ _
    exact ⟨rfl, rfl⟩

theorem frame_trans (s s1 s2 : State) (fd0 : Int) (h1 : Frame s s1 fd0)
    (h2 : Frame s1 s2 fd0) : Frame s s2 fd0 := by
  constructor
  · intro fd hfd
    rw [h2.reg_eq fd hfd, h1.reg_eq fd hfd]
  · intro j hj hlt
    rw [h2.slot_eq j hj (by have := h1.size_le; omega), h1.slot_eq j hj hlt]
  · exact le_trans h1.size_le h2.size_le
  · intro j slot hj hlen hs
    by_cases hj1 : j < s1.iob.length
    · rw [h2.slot_eq j hj hj1] at hs
      exact h1.fresh_zero j slot hj hlen hs
    · exact h2.fresh_zero j slot hj (by omega) hs
  · intro j slot hj hs
    have hlt : j < s.iob.length := by
      by_contra hc
      rw [List.getElem?_eq_none (by omega)] at hs
      cases hs
    have hs1 : s1.iob[j]? = some slot := by rw [h1.slot_eq j hj hlt]; exact hs
    have a := h1.heap_eq j slot hj hs
    have b := h2.heap_eq j slot hj hs1
    exact ⟨by rw [b.1, a.1], by rw [b.2, a.2]⟩

/-! ## What the connection branches do -/

theorem rx_step_conn (fd fd0 : Int) (acc : List Byte) (c : Call) (h : Call.on_conn fd0 c) :
    rx_step fd acc c = acc ++ rx_step fd [] c := by
  cases c <;> simp [rx_step, Call.on_conn] at h ⊢
  split_ifs <;> simp

theorem tx_step_conn (fd fd0 : Int) (acc : List Byte) (c : Call) (h : Call.on_conn fd0 c) :
    tx_step fd acc c = acc ++ tx_step fd [] c := by
  cases c <;> simp [tx_step, Call.on_conn] at h ⊢
  split_ifs <;> simp

theorem rx_foldl_conn (fd fd0 : Int) (l : List Call) (h : ∀ c ∈ l, Call.on_conn fd0 c)
    (acc : List Byte) : l.foldl (rx_step fd) acc = acc ++ rx fd l := by
  induction l generalizing acc with
  | nil => simp [rx]
  | cons c l ih =>
    have hc := h c (List.mem_cons_self _ _)
    have hl : ∀ x ∈ l, Call.on_conn fd0 x := fun x hx => h x (List.mem_cons_of_mem _ hx)
    simp only [rx, List.foldl_cons]
    rw [ih hl, ih hl (rx_step fd [] c), rx_step_conn fd fd0 acc c hc]
    simp [rx]

theorem tx_foldl_conn (fd fd0 : Int) (l : List Call) (h : ∀ c ∈ l, Call.on_conn fd0 c)
    (acc : List Byte) : l.foldl (tx_step fd) acc = acc ++ tx fd l := by
  induction l generalizing acc with
  | nil => simp [tx]
  | cons c l ih =>
    have hc := h c (List.mem_cons_self _ _)
    have hl : ∀ x ∈ l, Call.on_conn fd0 x := fun x hx => h x (List.mem_cons_of_mem _ hx)
    simp only [tx, List.foldl_cons]
    rw [ih hl, ih hl (tx_step fd [] c), tx_step_conn fd fd0 acc c hc]
    simp [tx]

theorem rx_append_conn (fd fd0 : Int) (l1 l2 : List Call) (h : ∀ c ∈ l2, Call.on_conn fd0 c) :
    rx fd (l1 ++ l2) = rx fd l1 ++ rx fd l2 := by
  unfold rx
  rw [List.foldl_append]
  exact rx_foldl_conn fd fd0 l2 h _

theorem tx_append_conn (fd fd0 : Int) (l1 l2 : List Call) (h : ∀ c ∈ l2, Call.on_conn fd0 c) :
    tx fd (l1 ++ l2) = tx fd l1 ++ tx fd l2 := by
  unfold tx
  rw [List.foldl_append]
  exact tx_foldl_conn fd fd0 l2 h _

theorem rx_other_conn (fd fd0 : Int) (l : List Call) (hne : fd ≠ fd0)
    (h : ∀ c ∈ l, Call.on_conn fd0 c) : rx fd l = [] := by
  induction l with
  | nil => rfl
  | cons c l ih =>
    have hc := h c (List.mem_cons_self _ _)
    have hl : ∀ x ∈ l, Call.on_conn fd0 x := fun x hx => h x (List.mem_cons_of_mem _ hx)
    have h1 : rx fd (c :: l) = rx fd ([c] ++ l) := rfl
    rw [h1, rx_append_conn fd fd0 _ _ hl, ih hl]
    cases c <;> simp [rx, rx_step, Call.on_conn] at hc ⊢
    intro e
    exact absurd (hc ▸ e).symm hne

theorem tx_other_conn (fd fd0 : Int) (l : List Call) (hne : fd ≠ fd0)
    (h : ∀ c ∈ l, Call.on_conn fd0 c) : tx fd l = [] := by
  induction l with
  | nil => rfl
  | cons c l ih =>
    have hc := h c (List.mem_cons_self _ _)
    have hl : ∀ x ∈ l, Call.on_conn fd0 x := fun x hx => h x (List.mem_cons_of_mem _ hx)
    have h1 : tx fd (c :: l) = tx fd ([c] ++ l) := rfl
    rw [h1, tx_append_conn fd fd0 _ _ hl, ih hl]
    cases c <;> simp [tx, tx_step, Call.on_conn] at hc ⊢
    intro e
    exact absurd (hc ▸ e).symm hne

theorem residual_idle (s : State) (fd : Int) (hinv : Inv s) (h : s.reg fd ≠ some EPOLLOUT) :
    residual s fd = [] := by
  unfold residual slot_of
  split_ifs with hneg
  · rfl
  · cases hs : s.iob[fd.toNat]? with
    | none => rfl
    | some slot =>
      have hcast : ((fd.toNat : Nat) : Int) = fd := by omega
      have := (hinv.idle fd.toNat slot (by rw [hcast]; exact h) hs).2
      simp only [this]

theorem live_buffer_idle (s : State) (fd : Int) (hinv : Inv s) (h : s.reg fd ≠ some EPOLLOUT) :
    live_buffer s fd = none := by
  unfold live_buffer slot_of
  split_ifs with hneg
  · rfl
  · cases hs : s.iob[fd.toNat]? with
    | none => rfl
    | some slot =>
      have hcast : ((fd.toNat : Nat) : Int) = fd := by omega
      have := (hinv.idle fd.toNat slot (by rw [hcast]; exact h) hs).1
      simp only [this]

theorem residual_writing (s : State) (fd : Int) (slot : iobuf) (b : List Byte) (h0 : 0 ≤ fd)
    (hs : s.iob[fd.toNat]? = some slot) (hb : s.heap slot.data.blk = some b) :
    residual s fd = (b.drop slot.data.off).take slot.len := by
  unfold residual slot_of
  have : ¬ fd < 0 := by omega
  simp only [this, if_false, hs, hb]

theorem to_size_t_nonneg (x : Int) (h : 0 ≤ x) : to_size_t x = x.toNat := by
  unfold to_size_t
  have : ¬ x < 0 := by omega
  simp [this]

theorem free_live (heap : Heap) (blk : Nat) (b : List Byte) (hpos : 0 < blk)
    (h : heap blk = some b) : free heap ⟨blk, 0⟩ = some (Function.update heap blk none) := by
  unfold free
  have : ¬ blk = 0 := by omega
  simp [this, h]

theorem conn_store_spec (s : State) (w : Wake) (retval len : Int) (hinv : Inv s)
    (h0 : 0 ≤ w.fd) (hreg : s.reg w.fd = some EPOLLIN) (hin : w.fd.toNat < s.iob.length)
    (hlen1 : 0 < len) (hlen2 : len ≤ BUFSZ)
    (hb : retval.toNat + len.toNat ≤ s.buf.length) :
    ∃ s', (conn_store s w retval len).1 = Outcome.cont s' ∧ Inv s' ∧ Frame s s' w.fd ∧
      (Call.close w.fd ∈ (conn_store s w retval len).2 → s'.reg w.fd = none) ∧
      (s'.reg w.fd ≠ none →
        residual s' w.fd = (s.buf.drop retval.toNat).take len.toNat) ∧
      rx w.fd (conn_store s w retval len).2 = [] ∧
      tx w.fd (conn_store s w retval len).2 = [] := by
  have hregne : s.reg w.fd ≠ some EPOLLOUT := by rw [hreg]; simp [EPOLLIN, EPOLLOUT]
  obtain ⟨slot, hslot⟩ : ∃ slot, s.iob[w.fd.toNat]? = some slot :=
    ⟨s.iob[w.fd.toNat], List.getElem?_eq_getElem hin⟩
  have hcast : ((w.fd.toNat : Nat) : Int) = w.fd := by omega
  have hdead := hinv.idle w.fd.toNat slot (by rw [hcast]; exact hregne) hslot
  have hptr := hinv.ptr_lt w.fd.toNat slot hslot
  have hbrk_dead : s.heap s.brk = none := by
    by_contra hc
    have := hinv.heap_lt _ hc
    omega
  have hzero : s.heap 0 = none := by
    by_contra hc
    have := hinv.heap_lt _ hc
    omega
  have hblen : ((s.buf.drop retval.toNat).take len.toNat).length = len.toNat := by
    rw [List.length_take, List.length_drop]
    omega
  unfold conn_store
  rw [hslot]
  dsimp only
  by_cases hm : w.malloc_ok = false
  · rw [if_pos hm]
    obtain ⟨hi, hf⟩ := inv_idle s
      (close_fd { s with iob := s.iob.set w.fd.toNat { slot with head := NULL } } w.fd)
      w.fd none hinv h0 hregne (Or.inl rfl) rfl rfl (le_refl _) (by simp [close_fd])
      (by
        intro j hj
        simp only [close_fd]
        rw [List.getElem?_set_ne (Ne.symm hj)])
      (by
        intro sl hsl
        simp only [close_fd] at hsl
        rw [List.getElem?_set_self hin] at hsl
        cases hsl
        simp only [NULL]
        exact ⟨hzero, hdead.2, hinv.brk_pos, hptr.2⟩)
    refine ⟨_, rfl, hi, hf, ?_, ?_, ?_, ?_⟩
    · intro _
      simp [close_fd]
    · intro hne
      simp [close_fd] at hne
    · simp [rx, rx_step]
    · simp [tx, tx_step]
  · rw [if_neg hm]
    by_cases hc : w.ctl_ret ≠ 0
    · rw [if_pos hc]
      have hfree : free (Function.update s.heap s.brk
            (some ((s.buf.drop retval.toNat).take len.toNat))) ⟨s.brk, 0⟩
          = some (Function.update (Function.update s.heap s.brk
              (some ((s.buf.drop retval.toNat).take len.toNat))) s.brk none) :=
        free_live _ _ _ hinv.brk_pos (by rw [Function.update_same])
      rw [hfree]
      dsimp only
      obtain ⟨hi, hf⟩ := inv_idle s
        (close_fd
          { s with
            iob := s.iob.set w.fd.toNat
              { head := ⟨s.brk, 0⟩, data := ⟨s.brk, 0⟩, len := len.toNat }
            heap := Function.update (Function.update s.heap s.brk
              (some ((s.buf.drop retval.toNat).take len.toNat))) s.brk none
            brk := s.brk + 1 } w.fd)
        w.fd none hinv h0 hregne (Or.inl rfl) rfl
        (by
          simp only [close_fd]
          rw [Function.update_idem, Function.update_eq_self_iff]
          exact hbrk_dead.symm)
        (by simp [close_fd]) (by simp [close_fd])
        (by
          intro j hj
          simp only [close_fd]
          rw [List.getElem?_set_ne (Ne.symm hj)])
        (by
          intro sl hsl
          simp only [close_fd] at hsl
          rw [List.getElem?_set_self hin] at hsl
          cases hsl
          simp only [close_fd]
          exact ⟨hbrk_dead, hbrk_dead, by omega, by omega⟩)
      refine ⟨_, rfl, hi, hf, ?_, ?_, ?_, ?_⟩
      · intro _
        simp [close_fd]
      · intro hne
        simp [close_fd] at hne
      · simp [rx, rx_step]
      · simp [tx, tx_step]
    · rw [if_neg hc]
      obtain ⟨hi, hf⟩ := inv_store s
        { s with
          iob := s.iob.set w.fd.toNat
            { head := ⟨s.brk, 0⟩, data := ⟨s.brk, 0⟩, len := len.toNat }
          heap := Function.update s.heap s.brk
            (some ((s.buf.drop retval.toNat).take len.toNat))
          brk := s.brk + 1
          reg := Function.update s.reg w.fd (some EPOLLOUT) }
        w.fd ((s.buf.drop retval.toNat).take len.toNat) hinv h0 hregne hin rfl rfl rfl
        (by rw [hblen])
        (by rw [hblen]; omega)
        (by rw [hblen]; simp only [BUFSZ] at hlen2 ⊢; omega)
      refine ⟨_, rfl, hi, hf, ?_, ?_, ?_, ?_⟩
      · intro hmem
        simp at hmem
      · intro _
        rw [residual_writing _ w.fd { head := ⟨s.brk, 0⟩, data := ⟨s.brk, 0⟩, len := len.toNat }
          ((s.buf.drop retval.toNat).take len.toNat) h0
          (by simp only; rw [List.getElem?_set_self hin])
          (by simp only; rw [Function.update_same])]
        simp only [List.drop_zero]
        rw [List.take_take, min_self]
      · simp [rx, rx_step]
      · simp [tx, tx_step]

theorem inv_close_idle (s : State) (fd : Int) (hinv : Inv s) (h0 : 0 ≤ fd)
    (hreg : s.reg fd ≠ some EPOLLOUT) :
    Inv (close_fd s fd) ∧ Frame s (close_fd s fd) fd := by
  have hcast : ((fd.toNat : Nat) : Int) = fd := by omega
  exact inv_idle s (close_fd s fd) fd none hinv h0 hreg (Or.inl rfl) rfl rfl (le_refl _) rfl
    (fun _ _ => rfl)
    (fun sl hsl => by
      have hd := hinv.idle fd.toNat sl (by rw [hcast]; exact hreg) hsl
      have hp := hinv.ptr_lt fd.toNat sl hsl
      exact ⟨hd.1, hd.2, hp.1, hp.2⟩)

theorem inv_buf (s : State) (buf : List Byte) (hinv : Inv s) : Inv { s with buf := buf } :=
  ⟨hinv.brk_pos, hinv.heap_lt, hinv.ptr_lt, hinv.reg_ok, hinv.writing, hinv.idle, hinv.owner,
    hinv.owned⟩

theorem frame_buf (s s' : State) (buf : List Byte) (fd : Int)
    (h : Frame { s with buf := buf } s' fd) : Frame s s' fd :=
  ⟨h.reg_eq, h.slot_eq, h.size_le, h.fresh_zero, h.heap_eq⟩

theorem residual_buf (s : State) (buf : List Byte) (fd : Int) :
    residual { s with buf := buf } fd = residual s fd := rfl

theorem conn_keep_spec (s : State) (w : Wake) (retval : Int) (hinv : Inv s)
    (h0 : 0 ≤ w.fd) (hreg : s.reg w.fd = some EPOLLIN) (hr : 0 ≤ retval)
    (hle : retval ≤ w.read_ret) (hL : w.read_ret ≤ BUFSZ)
    (hb : w.read_ret.toNat ≤ s.buf.length) :
    ∃ s', (conn_keep s w retval).1 = Outcome.cont s' ∧ Inv s' ∧ Frame s s' w.fd ∧
      (Call.close w.fd ∈ (conn_keep s w retval).2 → s'.reg w.fd = none) ∧
      (s'.reg w.fd ≠ none →
        residual s' w.fd = (s.buf.take w.read_ret.toNat).drop retval.toNat) ∧
      rx w.fd (conn_keep s w retval).2 = [] ∧
      tx w.fd (conn_keep s w retval).2 = [] := by
  have hregne : s.reg w.fd ≠ some EPOLLOUT := by rw [hreg]; simp [EPOLLIN, EPOLLOUT]
  have hres : ∀ n : Nat, n = (w.read_ret - retval).toNat →
      (s.buf.drop retval.toNat).take n = (s.buf.take w.read_ret.toNat).drop retval.toNat := by
    intro n hn
    rw [List.drop_take]
    congr 1
    omega
  unfold conn_keep
  by_cases h1 : w.read_ret - retval ≤ 0
  · rw [if_pos h1]
    refine ⟨s, rfl, hinv, frame_refl s _, ?_, ?_, rfl, rfl⟩
    · intro hm; simp at hm
    · intro _
      rw [residual_idle s _ hinv hregne]
      symm
      apply List.drop_eq_nil_of_le
      rw [List.length_take]
      omega
  · rw [if_neg h1]
    by_cases h2 : to_size_t w.fd ≥ s.iob.length
    · rw [if_pos h2]
      by_cases h3 : w.realloc_ok = false
      · rw [if_pos h3]
        obtain ⟨hi, hf⟩ := inv_close_idle s w.fd hinv h0 hregne
        refine ⟨_, rfl, hi, hf, ?_, ?_, ?_, ?_⟩
        · intro _; simp [close_fd]
        · intro hne; simp [close_fd] at hne
        · simp [rx, rx_step]
        · simp [tx, tx_step]
      · rw [if_neg h3]
        obtain ⟨hi1, hf1⟩ := inv_grow s
          { s with iob := s.iob ++
              List.replicate (to_size_t (w.fd + 1) - s.iob.length) iobuf.zero }
          w.fd _ hinv rfl rfl rfl rfl
        rw [to_size_t_nonneg _ h0] at h2
        have hin : w.fd.toNat < (s.iob ++
            List.replicate (to_size_t (w.fd + 1) - s.iob.length) iobuf.zero).length := by
          rw [List.length_append, List.length_replicate, to_size_t_nonneg _ (by omega)]
          omega
        obtain ⟨s', e1, hi, hf, hc, hres', hrx, htx⟩ := conn_store_spec
          { s with iob := s.iob ++
              List.replicate (to_size_t (w.fd + 1) - s.iob.length) iobuf.zero }
          w retval (w.read_ret - retval) hi1 h0 hreg hin (by omega) (by omega)
          (by simp only; omega)
        have hcalls := conn_store_calls
          { s with iob := s.iob ++
              List.replicate (to_size_t (w.fd + 1) - s.iob.length) iobuf.zero }
          w retval (w.read_ret - retval)
        refine ⟨s', ?_, hi, frame_trans _ _ _ _ hf1 hf, ?_, ?_, ?_, ?_⟩
        · rw [after_fst]; exact e1
        · intro hm
          rw [after_snd] at hm
          apply hc
          simpa using hm
        · intro hne
          rw [hres' hne]
          exact hres _ rfl
        · rw [after_snd, rx_append_conn _ _ _ _ hcalls, hrx]
          simp [rx, rx_step]
        · rw [after_snd, tx_append_conn _ _ _ _ hcalls, htx]
          simp [tx, tx_step]
    · rw [if_neg h2]
      rw [to_size_t_nonneg _ h0] at h2
      obtain ⟨s', e1, hi, hf, hc, hres', hrx, htx⟩ := conn_store_spec s w retval
        (w.read_ret - retval) hinv h0 hreg (by omega) (by omega) (by omega) (by omega)
      refine ⟨s', e1, hi, hf, hc, ?_, hrx, htx⟩
      intro hne
      rw [hres' hne]
      exact hres _ rfl

theorem conn_echo_spec (s : State) (w : Wake) (hinv : Inv s)
    (h0 : 0 ≤ w.fd) (hreg : s.reg w.fd = some EPOLLIN) (hL1 : 0 < w.read_ret)
    (hL2 : w.read_ret ≤ BUFSZ) (hb : w.read_ret.toNat ≤ s.buf.length)
    (hw : w.write_ret ≤ w.read_ret) :
    ∃ s', (conn_echo s w).1 = Outcome.cont s' ∧ Inv s' ∧ Frame s s' w.fd ∧
      (Call.close w.fd ∈ (conn_echo s w).2 → s'.reg w.fd = none) ∧
      (s'.reg w.fd ≠ none →
        tx w.fd (conn_echo s w).2 ++ residual s' w.fd = s.buf.take w.read_ret.toNat) ∧
      rx w.fd (conn_echo s w).2 = [] := by
  have hregne : s.reg w.fd ≠ some EPOLLOUT := by rw [hreg]; simp [EPOLLIN, EPOLLOUT]
  unfold conn_echo
  rw [after_fst, after_snd]
  by_cases h1 : w.write_ret < 0
  · rw [if_pos h1]
    by_cases h2 : w.errno = EAGAIN ∨ w.errno = EINTR
    · rw [if_pos h2]
      obtain ⟨s', e1, hi, hf, hc, hres, hrx, htx⟩ :=
        conn_keep_spec s w 0 hinv h0 hreg (le_refl _) (by omega) hL2 hb
      have hcalls := conn_keep_calls s w 0
      refine ⟨s', e1, hi, hf, ?_, ?_, ?_⟩
      · intro hm
        apply hc
        simpa using hm
      · intro hne
        rw [tx_append_conn _ _ _ _ hcalls, htx, hres hne]
        have : w.write_ret.toNat = 0 := by omega
        simp [tx, tx_step, this]
      · rw [rx_append_conn _ _ _ _ hcalls, hrx]
        simp [rx, rx_step]
    · rw [if_neg h2]
      obtain ⟨hi, hf⟩ := inv_close_idle s w.fd hinv h0 hregne
      refine ⟨_, rfl, hi, hf, ?_, ?_, ?_⟩
      · intro _; simp [close_fd]
      · intro hne; simp [close_fd] at hne
      · simp [rx, rx_step]
  · rw [if_neg h1]
    obtain ⟨s', e1, hi, hf, hc, hres, hrx, htx⟩ :=
      conn_keep_spec s w w.write_ret hinv h0 hreg (by omega) hw hL2 hb
    have hcalls := conn_keep_calls s w w.write_ret
    refine ⟨s', e1, hi, hf, ?_, ?_, ?_⟩
    · intro hm
      apply hc
      simpa using hm
    · intro hne
      rw [tx_append_conn _ _ _ _ hcalls, htx, hres hne]
      simp [tx, tx_step]
    · rw [rx_append_conn _ _ _ _ hcalls, hrx]
      simp [rx, rx_step]

theorem conn_in_ok (s : State) (w : Wake) (hinv : Inv s) (hreg : s.reg w.fd = some EPOLLIN)
    (hok : WakeOK s w) (hev : w.events = EPOLLIN) : ConnOK s w.fd (conn_in s w) := by
  have h0 : 0 ≤ w.fd := (hinv.reg_ok _ _ hreg).1
  have hregne : s.reg w.fd ≠ some EPOLLOUT := by rw [hreg]; simp [EPOLLIN, EPOLLOUT]
  obtain ⟨-, -, ⟨hL2, hdata⟩, -, hwc⟩ := hok
  have hw : w.write_ret ≤ w.read_ret := by
    unfold write_count at hwc
    rw [if_pos hev] at hwc
    exact hwc
  unfold conn_in
  by_cases h1 : w.read_ret < 0
  · rw [if_pos h1]
    refine ⟨s, rfl, hinv, frame_refl s _, ?_, ?_⟩
    · intro hm; simp at hm
    · intro _
      simp [rx, rx_step, tx, tx_step]
  · rw [if_neg h1]
    by_cases h2 : w.read_ret = 0
    · rw [if_pos h2]
      obtain ⟨hi, hf⟩ := inv_close_idle s w.fd hinv h0 hregne
      refine ⟨_, rfl, hi, hf, ?_, ?_⟩
      · intro _; simp [close_fd]
      · intro hne; simp [close_fd] at hne
    · rw [if_neg h2]
      have hpos : 0 < w.read_ret := by omega
      have hlen := hdata hpos
      have hfill : (fill s.buf w.read_data w.read_ret.toNat).take w.read_ret.toNat
          = w.read_data := by
        unfold fill
        rw [← hlen, List.take_length, List.take_left']
        rfl
      have hb : w.read_ret.toNat ≤ (fill s.buf w.read_data w.read_ret.toNat).length := by
        unfold fill
        rw [← hlen, List.take_length, List.length_append]
        omega
      obtain ⟨s', e1, hi, hf, hc, hres, hrx⟩ := conn_echo_spec
        { s with buf := fill s.buf w.read_data w.read_ret.toNat } w
        (inv_buf s _ hinv) h0 hreg hpos hL2 hb hw
      have hcalls := conn_echo_calls { s with buf := fill s.buf w.read_data w.read_ret.toNat } w
      refine ⟨s', ?_, hi, frame_buf _ _ _ _ hf, ?_, ?_⟩
      · rw [after_fst]; exact e1
      · intro hm
        rw [after_snd] at hm
        apply hc
        simpa using hm
      · intro hne
        rw [after_snd, tx_append_conn _ _ _ _ hcalls, rx_append_conn _ _ _ _ hcalls, hrx,
          residual_idle s _ hinv hregne]
        have htx1 : tx w.fd [Call.read w.fd w.read_ret (w.read_data.take w.read_ret.toNat)]
            = [] := by simp [tx, tx_step]
        have hrx1 : rx w.fd [Call.read w.fd w.read_ret (w.read_data.take w.read_ret.toNat)]
            = w.read_data := by
          simp [rx, rx_step, ← hlen]
        rw [htx1, hrx1, List.nil_append, hres hne]
        simp only [hfill, List.nil_append, List.append_nil]

theorem free_live_ptr (heap : Heap) (p : Ptr) (b : List Byte) (hoff : p.off = 0)
    (hpos : 0 < p.blk) (h : heap p.blk = some b) :
    free heap p = some (Function.update heap p.blk none) := by
  unfold free
  have : ¬ p.blk = 0 := by omega
  simp [this, h, hoff]

theorem conn_drain_spec (s : State) (w : Wake) (slot : iobuf) (retval : Int) (hinv : Inv s)
    (hreg : s.reg w.fd = some EPOLLOUT) (hslot : s.iob[w.fd.toNat]? = some slot)
    (hr0 : 0 ≤ retval) (hr1 : retval ≤ slot.len) :
    ∃ s', (conn_drain s w slot retval).1 = Outcome.cont s' ∧ Inv s' ∧ Frame s s' w.fd ∧
      (Call.close w.fd ∈ (conn_drain s w slot retval).2 → s'.reg w.fd = none) ∧
      (s'.reg w.fd ≠ none → residual s' w.fd = (residual s w.fd).drop retval.toNat) ∧
      rx w.fd (conn_drain s w slot retval).2 = [] ∧
      tx w.fd (conn_drain s w slot retval).2 = [] := by
  have h0 : 0 ≤ w.fd := (hinv.reg_ok _ _ hreg).1
  obtain ⟨slot1, b, hw1, hw2, hw3, hw4, hw5, hw6, hw7⟩ := hinv.writing w.fd hreg
  rw [hslot] at hw1
  cases hw1
  have hpos : 0 < slot.head.blk := (hinv.heap_lt _ (by rw [hw2]; simp)).1
  have hfree := free_live_ptr s.heap slot.head b hw3 hpos hw2
  have hin : w.fd.toNat < s.iob.length := by
    by_contra hc
    rw [List.getElem?_eq_none (by omega)] at hslot
    cases hslot
  have hres : residual s w.fd = (b.drop slot.data.off).take slot.len :=
    residual_writing s w.fd slot b h0 hslot (by rw [hw4]; exact hw2)
  have hsz : to_size_t ((slot.len : Int) - retval) = slot.len - retval.toNat := by
    rw [to_size_t_nonneg _ (by omega)]
    omega
  unfold conn_drain
  rw [hsz]
  by_cases h1 : slot.len - retval.toNat = 0
  · rw [if_pos h1, hfree]
    dsimp only
    by_cases h2 : w.ctl_ret ≠ 0
    · rw [if_pos h2]
      obtain ⟨hi, hf⟩ := inv_free s
        (close_fd
          { s with
            iob := s.iob.set w.fd.toNat { slot with len := 0 }
            heap := Function.update s.heap slot.head.blk none } w.fd)
        w.fd slot { slot with len := 0 } none hinv hreg hslot (Or.inl rfl) rfl rfl rfl rfl rfl rfl
      refine ⟨_, rfl, hi, hf, ?_, ?_, ?_, ?_⟩
      · intro _; simp [close_fd]
      · intro hne; simp [close_fd] at hne
      · simp [rx, rx_step]
      · simp [tx, tx_step]
    · rw [if_neg h2]
      obtain ⟨hi, hf⟩ := inv_free s
        { s with
          iob := s.iob.set w.fd.toNat { slot with len := 0 }
          heap := Function.update s.heap slot.head.blk none
          reg := Function.update s.reg w.fd (some EPOLLIN) }
        w.fd slot { slot with len := 0 } (some EPOLLIN) hinv hreg hslot (Or.inr rfl) rfl rfl rfl
        rfl rfl rfl
      refine ⟨_, rfl, hi, hf, ?_, ?_, ?_, ?_⟩
      · intro hm; simp at hm
      · intro _
        rw [residual_idle _ _ hi (by simp [EPOLLIN, EPOLLOUT]), hres]
        symm
        apply List.drop_eq_nil_of_le
        rw [List.length_take]
        omega
      · simp [rx, rx_step]
      · simp [tx, tx_step]
  · rw [if_neg h1]
    obtain ⟨hi, hf⟩ := inv_advance s
      { s with
        iob := s.iob.set w.fd.toNat
          { slot with
            len := slot.len - retval.toNat
            data := ⟨slot.data.blk, slot.data.off + retval.toNat⟩ } }
      w.fd slot retval.toNat hinv hreg hslot (by omega) rfl rfl rfl rfl
    refine ⟨_, rfl, hi, hf, ?_, ?_, ?_, ?_⟩
    · intro hm; simp at hm
    · intro _
      rw [residual_writing _ w.fd
        { slot with
          len := slot.len - retval.toNat
          data := ⟨slot.data.blk, slot.data.off + retval.toNat⟩ } b h0
        (by simp only; rw [List.getElem?_set_self hin])
        (by simp only; rw [hw4]; exact hw2), hres]
      simp only
      rw [List.drop_take, List.drop_drop]
    · simp [rx, rx_step]
    · simp [tx, tx_step]

theorem conn_out_ok (s : State) (w : Wake) (hinv : Inv s) (hreg : s.reg w.fd = some EPOLLOUT)
    (hok : WakeOK s w) (hev : w.events = EPOLLOUT) : ConnOK s w.fd (conn_out s w) := by
  have h0 : 0 ≤ w.fd := (hinv.reg_ok _ _ hreg).1
  obtain ⟨slot, b, hslot, hw2, hw3, hw4, hw5, hw6, hw7⟩ := hinv.writing w.fd hreg
  obtain ⟨-, -, -, -, hwc⟩ := hok
  have hw : w.write_ret ≤ slot.len := by
    unfold write_count at hwc
    rw [if_neg (by rw [hev]; simp [EPOLLIN, EPOLLOUT]), hslot] at hwc
    exact hwc
  have hpos : 0 < slot.head.blk := (hinv.heap_lt _ (by rw [hw2]; simp)).1
  have hfree := free_live_ptr s.heap slot.head b hw3 hpos hw2
  have hres : residual s w.fd = (b.drop slot.data.off).take slot.len :=
    residual_writing s w.fd slot b h0 hslot (by rw [hw4]; exact hw2)
  have hload : load s.heap slot.data slot.len = some (residual s w.fd) := by
    unfold load
    rw [hw4, hw2, hres]
    simp only
    rw [if_pos (by omega)]
  have hreslen : (residual s w.fd).length = slot.len := by
    rw [hres, List.length_take, List.length_drop]
    omega
  unfold conn_out
  rw [hslot]
  dsimp only
  rw [hload]
  dsimp only
  unfold ConnOK
  rw [after_fst, after_snd]
  by_cases h1 : w.write_ret < 0
  · rw [if_pos h1]
    have hz : w.write_ret.toNat = 0 := by omega
    by_cases h2 : w.errno = EAGAIN ∨ w.errno = EINTR
    · rw [if_pos h2]
      obtain ⟨s', e1, hi, hf, hc, hres', hrx, htx⟩ :=
        conn_drain_spec s w slot 0 hinv hreg hslot (le_refl _) (by omega)
      have hcalls := conn_drain_calls s w slot 0
      refine ⟨s', e1, hi, hf, ?_, ?_⟩
      · intro hm
        apply hc
        simpa using hm
      · intro hne
        rw [tx_append_conn _ _ _ _ hcalls, rx_append_conn _ _ _ _ hcalls, htx, hrx, hres' hne]
        simp [tx, tx_step, rx, rx_step, hz]
    · rw [if_neg h2, hfree]
      dsimp only
      obtain ⟨hi, hf⟩ := inv_free s
        (close_fd { s with heap := Function.update s.heap slot.head.blk none } w.fd)
        w.fd slot slot none hinv hreg hslot (Or.inl rfl) rfl rfl rfl
        (by simp only [close_fd]; exact (set_slot_self _ _ _ hslot).symm) rfl rfl
      refine ⟨_, rfl, hi, hf, ?_, ?_⟩
      · intro _; simp [close_fd]
      · intro hne; simp [close_fd] at hne
  · rw [if_neg h1]
    obtain ⟨s', e1, hi, hf, hc, hres', hrx, htx⟩ :=
      conn_drain_spec s w slot w.write_ret hinv hreg hslot (by omega) hw
    have hcalls := conn_drain_calls s w slot w.write_ret
    refine ⟨s', e1, hi, hf, ?_, ?_⟩
    · intro hm
      apply hc
      simpa using hm
    · intro hne
      rw [tx_append_conn _ _ _ _ hcalls, rx_append_conn _ _ _ _ hcalls, htx, hrx, hres' hne]
      simp [tx, tx_step, rx, rx_step]

/-! ## The state start-up hands to the loop -/

theorem bootreg_update (reg : Int → Option Nat) (fd : Int) (h : BootReg reg) (h0 : 0 ≤ fd) :
    BootReg (Function.update reg fd (some EPOLLIN)) := by
  intro x m hx
  by_cases e : x = fd
  · subst e
    rw [Function.update_same] at hx
    cases hx
    exact ⟨h0, rfl⟩
  · rw [Function.update_noteq e] at hx
    exact h x m hx

theorem boot_watchdog_state (env : BootEnv) (epfd signal_fd listen_fd dgram_fd backlog : Int)
    (reg : Int → Option Nat) (log : List Call) (s : State) (hreg : BootReg reg)
    (h : (boot_watchdog env epfd signal_fd listen_fd dgram_fd backlog reg log).1
      = Outcome.cont s) :
    s.iob = [] ∧ s.heap = (fun _ => none) ∧ s.brk = 1 ∧ BootReg s.reg := by
  unfold boot_watchdog at h
  cases hw : env.watchdog_usec with
  | none =>
    rw [hw] at h
    simp only [Outcome.cont.injEq] at h
    subst h
    exact ⟨rfl, rfl, rfl, hreg⟩
  | some str =>
    rw [hw] at h
    dsimp only at h
    split_ifs at h with h1 h2 h3 <;>
      (simp only [Outcome.cont.injEq] at h
       subst h
       exact ⟨rfl, rfl, rfl, bootreg_update _ _ hreg (by omega)⟩)

theorem boot_dgram_state (env : BootEnv) (epfd listen_fd dgram_fd backlog : Int)
    (reg : Int → Option Nat) (log : List Call) (s : State) (hreg : BootReg reg)
    (h : (boot_dgram env epfd listen_fd dgram_fd backlog reg log).1 = Outcome.cont s) :
    s.iob = [] ∧ s.heap = (fun _ => none) ∧ s.brk = 1 ∧ BootReg s.reg := by
  unfold boot_dgram at h
  dsimp only at h
  split_ifs at h with h1 h2 h3 h4 h5 h6 h7
  · exact boot_watchdog_state _ _ _ _ _ _ _ _ _
      (bootreg_update _ _ (bootreg_update _ _ hreg (by omega)) (by omega)) h
  · exact boot_watchdog_state _ _ _ _ _ _ _ _ _
      (bootreg_update _ _ (bootreg_update _ _ hreg (by omega)) (by omega)) h

theorem boot_listen_state (env : BootEnv) (epfd listen_fd dgram_fd backlog : Int)
    (log : List Call) (s : State)
    (h : (boot_listen env epfd listen_fd dgram_fd backlog log).1 = Outcome.cont s) :
    s.iob = [] ∧ s.heap = (fun _ => none) ∧ s.brk = 1 ∧ BootReg s.reg := by
  have hnone : BootReg (fun _ => none) := by
    intro fd m hm
    cases hm
  unfold boot_listen at h
  dsimp only at h
  split_ifs at h with h1 h2 h3 h4 h5 h6 h7
  · exact boot_dgram_state _ _ _ _ _ _ _ _ (bootreg_update _ _ hnone (by omega)) h
  · exact boot_dgram_state _ _ _ _ _ _ _ _ (bootreg_update _ _ hnone (by omega)) h

theorem startup_state (env : BootEnv) (s : State) (h : (startup env).1 = Outcome.cont s) :
    s.iob = [] ∧ s.heap = (fun _ => none) ∧ s.brk = 1 ∧ BootReg s.reg := by
  unfold startup at h
  dsimp only at h
  split_ifs at h
  split at h
  · cases h
  · exact boot_listen_state _ _ _ _ _ _ _ h

theorem inv_boot (s : State) (h1 : s.iob = []) (h2 : s.heap = (fun _ => none))
    (h3 : s.brk = 1) (h4 : BootReg s.reg) : Inv s := by
  constructor
  · omega
  · intro b hb
    rw [h2] at hb
    exact absurd rfl hb
  · intro i slot hs
    rw [h1] at hs
    simp at hs
  · intro fd m hm
    exact ⟨(h4 fd m hm).1, Or.inl (h4 fd m hm).2⟩
  · intro fd hfd
    have := (h4 fd _ hfd).2
    simp [EPOLLIN, EPOLLOUT] at this
  · intro i slot _ hs
    rw [h1] at hs
    simp at hs
  · intro i j si sj _ hs
    rw [h1] at hs
    simp at hs
  · intro b hb
    rw [h2] at hb
    exact absurd rfl hb

theorem rx_quiet (fd : Int) (l : List Call) (h0 : 0 ≤ fd) (h : ∀ c ∈ l, Call.quiet c)
    (acc : List Byte) : l.foldl (rx_step fd) acc = acc := by
  induction l generalizing acc with
  | nil => rfl
  | cons c l ih =>
    have hc := h c (List.mem_cons_self _ _)
    have hl : ∀ x ∈ l, Call.quiet x := fun x hx => h x (List.mem_cons_of_mem _ hx)
    simp only [List.foldl_cons]
    have : rx_step fd acc c = acc := by
      cases c <;> simp [rx_step, Call.quiet] at hc ⊢
      intro e
      omega
    rw [this, ih hl]

theorem tx_quiet (fd : Int) (l : List Call) (h0 : 0 ≤ fd) (h : ∀ c ∈ l, Call.quiet c)
    (acc : List Byte) : l.foldl (tx_step fd) acc = acc := by
  induction l generalizing acc with
  | nil => rfl
  | cons c l ih =>
    have hc := h c (List.mem_cons_self _ _)
    have hl : ∀ x ∈ l, Call.quiet x := fun x hx => h x (List.mem_cons_of_mem _ hx)
    simp only [List.foldl_cons]
    have : tx_step fd acc c = acc := by
      cases c <;> simp [tx_step, Call.quiet] at hc ⊢
      intro e
      omega
    rw [this, ih hl]

theorem boot_call_quiet (env : BootEnv) (c : Call) (h : boot_call env c) : Call.quiet c := by
  cases c <;> simp [boot_call, Call.quiet] at h ⊢

theorem startup_good (env : BootEnv) (s : State) (log : List Call)
    (h : startup env = (Outcome.cont s, log)) : Inv s ∧ Echo s log := by
  have hs : (startup env).1 = Outcome.cont s := by rw [h]
  obtain ⟨h1, h2, h3, h4⟩ := startup_state env s hs
  have hinv := inv_boot s h1 h2 h3 h4
  refine ⟨hinv, ?_⟩
  intro fd hfd
  have hq : ∀ c ∈ log, Call.quiet c := by
    intro c hc
    have := startup_calls env c (by rw [h]; exact hc)
    exact boot_call_quiet env c this
  have h0 : 0 ≤ fd := by
    cases hm : s.reg fd with
    | none => exact absurd hm hfd
    | some m => exact (h4 fd m hm).1
  have hne : s.reg fd ≠ some EPOLLOUT := by
    intro e
    have := (h4 fd _ e).2
    simp [EPOLLIN, EPOLLOUT] at this
  unfold tx rx
  rw [rx_quiet fd log h0 hq, tx_quiet fd log h0 hq, residual_idle s fd hinv hne]
  rfl

/-! ## One iteration of the loop -/

theorem wake_reg (s : State) (w : Wake) (hinv : Inv s) (hok : WakeOK s w) (hn : 0 < w.n_fds) :
    s.reg w.fd ≠ none ∧ (w.events = EPOLLIN → s.reg w.fd = some EPOLLIN) ∧
      (w.events = EPOLLOUT → s.reg w.fd = some EPOLLOUT) := by
  obtain ⟨h1, -⟩ := hok
  obtain ⟨hsome, hin, hout⟩ := h1 hn
  cases hm : s.reg w.fd with
  | none => simp [hm] at hsome
  | some m =>
    have hmm := (hinv.reg_ok _ _ hm).2
    refine ⟨by simp, ?_, ?_⟩
    · intro hev
      have := hin (by rw [hev]; decide)
      unfold asked at this
      rw [hm] at this
      rcases hmm with rfl | rfl
      · rfl
      · simp [EPOLLIN, EPOLLOUT] at this
    · intro hev
      have := hout (by rw [hev]; decide)
      unfold asked at this
      rw [hm] at this
      rcases hmm with rfl | rfl
      · simp [EPOLLIN, EPOLLOUT] at this
      · rfl

theorem inv_congr (s s' : State) (hinv : Inv s) (h1 : s'.iob = s.iob) (h2 : s'.heap = s.heap)
    (h3 : s'.brk = s.brk) (h4 : s'.reg = s.reg) : Inv s' := by
  obtain ⟨a, b, c, d, e, f, g, iob, heap, brk, reg⟩ := s'
  simp only at h1 h2 h3 h4
  subst h1 h2 h3 h4
  exact ⟨hinv.brk_pos, hinv.heap_lt, hinv.ptr_lt, hinv.reg_ok, hinv.writing, hinv.idle,
    hinv.owner, hinv.owned⟩

theorem residual_congr (s s' : State) (fd : Int) (h1 : s'.iob = s.iob) (h2 : s'.heap = s.heap) :
    residual s' fd = residual s fd := by
  unfold residual slot_of
  rw [h1, h2]

theorem residual_frame (s s' : State) (fd0 fd : Int) (hinv : Inv s) (hinv' : Inv s')
    (hf : Frame s s' fd0) (h0 : 0 ≤ fd0) (hne : fd ≠ fd0) :
    residual s' fd = residual s fd ∧ live_buffer s' fd = live_buffer s fd := by
  have hreg := hf.reg_eq fd hne
  by_cases hw : s.reg fd = some EPOLLOUT
  · have hpos := (hinv.reg_ok _ _ hw).1
    obtain ⟨slot, b, hs, hb, -, hd, -⟩ := hinv.writing fd hw
    have hj : fd.toNat ≠ fd0.toNat := by omega
    have hlt : fd.toNat < s.iob.length := by
      by_contra hc
      rw [List.getElem?_eq_none (by omega)] at hs
      cases hs
    have hs' : s'.iob[fd.toNat]? = some slot := by rw [hf.slot_eq _ hj hlt]; exact hs
    have hh := hf.heap_eq _ slot hj hs
    constructor
    · rw [residual_writing s fd slot b hpos hs (by rw [hd]; exact hb),
        residual_writing s' fd slot b hpos hs' (by rw [hh.2, hd]; exact hb)]
    · unfold live_buffer slot_of
      have : ¬ fd < 0 := by omega
      simp only [this, if_false, hs, hs', hh.1]
  · have hw' : s'.reg fd ≠ some EPOLLOUT := by rw [hreg]; exact hw
    rw [residual_idle s fd hinv hw, residual_idle s' fd hinv' hw',
      live_buffer_idle s fd hinv hw, live_buffer_idle s' fd hinv' hw']
    exact ⟨rfl, rfl⟩

theorem dispatch_conn (s : State) (w : Wake) (hinv : Inv s) (hok : WakeOK s w)
    (hn : 0 < w.n_fds) (h1 : w.fd ≠ s.signal_fd) (h2 : w.fd ≠ s.timer_fd)
    (h3 : w.fd ≠ s.listen_fd) (h4 : w.fd ≠ s.dgram_fd) :
    ConnOK s w.fd (dispatch s w) ∧ ∀ c ∈ (dispatch s w).2, Call.on_conn w.fd c := by
  obtain ⟨-, hin, hout⟩ := wake_reg s w hinv hok hn
  unfold dispatch
  rw [if_neg h1, if_neg h2, if_neg h3, if_neg h4]
  by_cases e1 : w.events = EPOLLIN
  · rw [if_pos e1]
    exact ⟨conn_in_ok s w hinv (hin e1) hok e1, conn_in_calls s w⟩
  · rw [if_neg e1]
    by_cases e2 : w.events = EPOLLOUT
    · rw [if_pos e2]
      exact ⟨conn_out_ok s w hinv (hout e2) hok e2, conn_out_calls s w⟩
    · rw [if_neg e2]
      refine ⟨⟨s, rfl, hinv, frame_refl s _, ?_, ?_⟩, ?_⟩
      · intro hm; simp at hm
      · intro _; simp [rx, tx]
      · intro c hc; simp at hc

theorem dispatch_special (s : State) (w : Wake) (s' : State) (l : List Call)
    (h : dispatch s w = (Outcome.cont s', l))
    (hsp : w.fd = s.signal_fd ∨ w.fd = s.timer_fd ∨ w.fd = s.listen_fd ∨ w.fd = s.dgram_fd) :
    ((∀ c ∈ l, Call.quiet c) ∧ s'.iob = s.iob ∧ s'.heap = s.heap ∧ s'.brk = s.brk ∧
      s'.reg = s.reg) ∨
    (w.fd = s.listen_fd ∧ 0 ≤ w.accept_ret ∧
      l = [Call.accept w.accept_ret, Call.epoll_add w.accept_ret EPOLLIN] ∧
      s' = { s with reg := Function.update s.reg w.accept_ret (some EPOLLIN) }) := by
  unfold dispatch at h
  dsimp only at h
  split_ifs at h
  all_goals try (exfalso; rcases hsp with e | e | e | e <;> contradiction)
  all_goals simp only [Prod.mk.injEq, Outcome.cont.injEq, reduceCtorEq, false_and] at h
  all_goals
    obtain ⟨rfl, rfl⟩ := h
    first
      | (left
         refine ⟨?_, rfl, rfl, rfl, rfl⟩
         intro c hc
         simp at hc
         rcases hc with rfl | rfl <;> simp [Call.quiet] <;> assumption)
      | (right
         exact ⟨by assumption, by omega, rfl, rfl⟩)

theorem dispatch_special_no_fault (s : State) (w : Wake)
    (hsp : w.fd = s.signal_fd ∨ w.fd = s.timer_fd ∨ w.fd = s.listen_fd ∨ w.fd = s.dgram_fd) :
    (dispatch s w).1 ≠ Outcome.fault := by
  unfold dispatch
  dsimp only
  split_ifs <;> first
    | (exfalso; rcases hsp with e | e | e | e <;> contradiction)
    | simp

theorem rx_wait_conn (fd fd0 : Int) (log l : List Call) (n : Int)
    (h : ∀ c ∈ l, Call.on_conn fd0 c) :
    rx fd (log ++ Call.epoll_wait n :: l) = rx fd log ++ rx fd l := by
  unfold rx
  rw [List.foldl_append, List.foldl_cons]
  exact rx_foldl_conn fd fd0 l h _

theorem tx_wait_conn (fd fd0 : Int) (log l : List Call) (n : Int)
    (h : ∀ c ∈ l, Call.on_conn fd0 c) :
    tx fd (log ++ Call.epoll_wait n :: l) = tx fd log ++ tx fd l := by
  unfold tx
  rw [List.foldl_append, List.foldl_cons]
  exact tx_foldl_conn fd fd0 l h _

theorem rx_wait_quiet (fd : Int) (log l : List Call) (n : Int) (h0 : 0 ≤ fd)
    (h : ∀ c ∈ l, Call.quiet c) : rx fd (log ++ Call.epoll_wait n :: l) = rx fd log := by
  unfold rx
  rw [List.foldl_append, List.foldl_cons]
  exact rx_quiet fd l h0 h _

theorem tx_wait_quiet (fd : Int) (log l : List Call) (n : Int) (h0 : 0 ≤ fd)
    (h : ∀ c ∈ l, Call.quiet c) : tx fd (log ++ Call.epoll_wait n :: l) = tx fd log := by
  unfold tx
  rw [List.foldl_append, List.foldl_cons]
  exact tx_quiet fd l h0 h _

theorem loop_body_cont (s : State) (w : Wake) (s' : State) (l : List Call)
    (h : loop_body s w = (Outcome.cont s', l)) :
    (w.n_fds ≤ 0 ∧ s' = s ∧ l = [Call.epoll_wait w.n_fds]) ∨
    (0 < w.n_fds ∧ ∃ l2, l = Call.epoll_wait w.n_fds :: l2 ∧
      dispatch s w = (Outcome.cont s', l2)) := by
  unfold loop_body at h
  split_ifs at h with hn
  · left
    simp only [Prod.mk.injEq, Outcome.cont.injEq] at h
    exact ⟨hn, h.1.symm, h.2.symm⟩
  · right
    rcases hd : dispatch s w with ⟨o, l2⟩
    rw [hd] at h
    simp only [Prod.mk.injEq] at h
    exact ⟨by omega, l2, h.2.symm, by rw [h.1]⟩

theorem step_good (s : State) (w : Wake) (s' : State) (l log : List Call) (hinv : Inv s)
    (hecho : Echo s log) (hok : WakeOK s w) (h : loop_body s w = (Outcome.cont s', l)) :
    Inv s' ∧ Echo s' (log ++ l) := by
  have hreg0 : ∀ (t : State) (fd : Int), Inv t → t.reg fd ≠ none → 0 ≤ fd := by
    intro t fd ht hfd
    cases hm : t.reg fd with
    | none => exact absurd hm hfd
    | some m => exact (ht.reg_ok fd m hm).1
  rcases loop_body_cont s w s' l h with ⟨-, rfl, rfl⟩ | ⟨hn, l2, rfl, hd⟩
  · refine ⟨hinv, ?_⟩
    intro fd hfd
    have h0 := hreg0 _ fd hinv hfd
    rw [rx_wait_quiet fd log [] _ h0 (by simp), tx_wait_quiet fd log [] _ h0 (by simp)]
    exact hecho fd hfd
  · by_cases hsp : w.fd = s.signal_fd ∨ w.fd = s.timer_fd ∨ w.fd = s.listen_fd ∨
        w.fd = s.dgram_fd
    · rcases dispatch_special s w s' l2 hd hsp with ⟨hq, e1, e2, e3, e4⟩ | ⟨-, hacc, rfl, rfl⟩
      · have hinv' := inv_congr s s' hinv e1 e2 e3 e4
        refine ⟨hinv', ?_⟩
        intro fd hfd
        have h0 := hreg0 _ fd hinv' hfd
        rw [rx_wait_quiet fd log l2 _ h0 hq, tx_wait_quiet fd log l2 _ h0 hq,
          residual_congr s s' fd e1 e2]
        exact hecho fd (by rw [← e4]; exact hfd)
      · have hfresh : s.reg w.accept_ret = none := hok.2.1 hacc
        obtain ⟨hinv', -⟩ := inv_idle s
          { s with reg := Function.update s.reg w.accept_ret (some EPOLLIN) }
          w.accept_ret (some EPOLLIN) hinv hacc (by rw [hfresh]; simp) (Or.inr rfl) rfl rfl
          (le_refl _) rfl (fun _ _ => rfl)
          (fun sl hsl => by
            have hcast : ((w.accept_ret.toNat : Nat) : Int) = w.accept_ret := by omega
            have hd := hinv.idle w.accept_ret.toNat sl (by rw [hcast, hfresh]; simp) hsl
            have hp := hinv.ptr_lt w.accept_ret.toNat sl hsl
            exact ⟨hd.1, hd.2, hp.1, hp.2⟩)
        refine ⟨hinv', ?_⟩
        intro fd hfd
        by_cases e : fd = w.accept_ret
        · subst e
          rw [residual_idle _ _ hinv' (by simp [EPOLLIN, EPOLLOUT])]
          simp [rx, tx, rx_step, tx_step, List.foldl_append]
        · have hfd' : s.reg fd ≠ none := by
            simp only at hfd
            rw [Function.update_noteq e] at hfd
            exact hfd
          have e' : ¬ w.accept_ret = fd := fun x => e x.symm
          have := hecho fd hfd'
          simp only [rx, tx, rx_step, tx_step, List.foldl_append, List.foldl_cons,
            List.foldl_nil, e', if_false] at this ⊢
          exact this
    · have h1 : w.fd ≠ s.signal_fd := fun e => hsp (Or.inl e)
      have h2 : w.fd ≠ s.timer_fd := fun e => hsp (Or.inr (Or.inl e))
      have h3 : w.fd ≠ s.listen_fd := fun e => hsp (Or.inr (Or.inr (Or.inl e)))
      have h4 : w.fd ≠ s.dgram_fd := fun e => hsp (Or.inr (Or.inr (Or.inr e)))
      obtain ⟨⟨s'', e1, hinv', hf, -, heq⟩, hcalls⟩ := dispatch_conn s w hinv hok hn h1 h2 h3 h4
      rw [hd] at e1 hcalls heq
      simp only [Outcome.cont.injEq] at e1
      subst e1
      obtain ⟨hopen, -, -⟩ := wake_reg s w hinv hok hn
      have hw0 := hreg0 _ w.fd hinv hopen
      refine ⟨hinv', ?_⟩
      intro fd hfd
      rw [rx_wait_conn fd w.fd log l2 _ hcalls, tx_wait_conn fd w.fd log l2 _ hcalls]
      by_cases e : fd = w.fd
      · subst e
        rw [List.append_assoc, heq hfd, ← List.append_assoc, hecho _ hopen]
      · rw [rx_other_conn fd w.fd l2 e hcalls, tx_other_conn fd w.fd l2 e hcalls,
          (residual_frame s s' w.fd fd hinv hinv' hf hw0 e).1]
        have hfd' : s.reg fd ≠ none := by rw [← hf.reg_eq fd e]; exact hfd
        simpa using hecho fd hfd'

theorem step_no_fault (s : State) (w : Wake) (hinv : Inv s) (hok : WakeOK s w) :
    (loop_body s w).1 ≠ Outcome.fault := by
  unfold loop_body
  split_ifs with hn
  · simp
  · have hn' : 0 < w.n_fds := by omega
    by_cases hsp : w.fd = s.signal_fd ∨ w.fd = s.timer_fd ∨ w.fd = s.listen_fd ∨
        w.fd = s.dgram_fd
    · exact dispatch_special_no_fault s w hsp
    · have h1 : w.fd ≠ s.signal_fd := fun e => hsp (Or.inl e)
      have h2 : w.fd ≠ s.timer_fd := fun e => hsp (Or.inr (Or.inl e))
      have h3 : w.fd ≠ s.listen_fd := fun e => hsp (Or.inr (Or.inr (Or.inl e)))
      have h4 : w.fd ≠ s.dgram_fd := fun e => hsp (Or.inr (Or.inr (Or.inr e)))
      obtain ⟨⟨s'', e1, -⟩, -⟩ := dispatch_conn s w hinv hok hn' h1 h2 h3 h4
      simp only
      rw [e1]
      simp

theorem reach_good (s : State) (log : List Call) (h : Reach s log) : Inv s ∧ Echo s log := by
  induction h with
  | boot env s log hs => exact startup_good env s log hs
  | step s log w s' l _ hok hstep ih => exact step_good s w s' l log ih.1 ih.2 hok hstep

/-! ## Main results: start-up, configuration, exit status and datagrams -/

theorem main_of_startup_exit (env : BootEnv) (ws : List Wake) (st : Int)
    (h : (startup env).1 = Outcome.exit st) : main env ws = startup env := by
  unfold main
  rcases hs : startup env with ⟨o, l⟩
  rw [hs] at h
  simp only at h
  subst h
  rfl

/-- C3: whenever `main` returns, its status is the success status exactly if
the loop read a complete signal record (128 bytes) carrying `SIGTERM` from the
signal descriptor; any other return gives the failure status. Moreover, in
every state (whatever the table holds) an iteration that reads such a record
returns the success status at once: the loop stops there, no matter what
wake-ups would follow. -/
theorem exit_status_iff_sigterm (env : BootEnv) (ws : List Wake) (st : Int)
    (h : (main env ws).1 = Outcome.exit st) :
    (st = EXIT_SUCCESS ↔ Call.read_signal SIZEOF_SSI SIGTERM ∈ (main env ws).2) ∧
    (st ≠ EXIT_SUCCESS → st = EXIT_FAILURE) ∧
    (∀ (s : State) (w : Wake) (rest : List Wake), 0 < w.n_fds → w.fd = s.signal_fd →
      w.sig_read = SIZEOF_SSI → w.ssi_signo = SIGTERM →
      loop s (w :: rest) = (Outcome.exit EXIT_SUCCESS,
        [Call.epoll_wait w.n_fds, Call.read_signal SIZEOF_SSI SIGTERM])) := by
  refine ⟨?_, ?_, ?_⟩
  · rw [main_sigterm_iff, h]
    constructor
    · intro e; rw [e]
    · intro e; simpa using e
  · intro hne
    rcases main_exit_status env ws st h with h1 | h1
    · exact absurd h1 hne
    · exact h1
  · intro s w rest hn hfd hr hsig
    have hn' : ¬ w.n_fds ≤ 0 := by omega
    simp [loop, loop_body, dispatch, hn', hfd, hr, hsig]

/-- The run of `sample_env` whose first wake-up delivers `SIGTERM` returns 0, and
its log holds the signal record. -/
theorem exit_status_iff_sigterm_witness :
    (main sample_env sigterm_run).1 = Outcome.exit 0 ∧
    ((0 : Int) = EXIT_SUCCESS ↔
      Call.read_signal SIZEOF_SSI SIGTERM ∈ (main sample_env sigterm_run).2) :=
  ⟨rfl, (exit_status_iff_sigterm sample_env sigterm_run 0 rfl).1⟩

/-- C4: if the supervisor passes more than two descriptors, or two that both
classify as listening stream sockets, or two that both classify as datagram
sockets, or any inherited descriptor (numbered from 3) that classifies as
neither or whose probe fails, then `main` returns the failure status and has
made no `socket`, `bind` or `listen` call and no `epoll_wait` call, that is, the
main loop was never entered. -/
theorem activation_rejected (env : BootEnv) (ws : List Wake)
    (h : 2 < env.sd_listen_fds ∨
      (env.sd_listen_fds = 2 ∧ fd_kind env 3 = SockKind.stream ∧
        fd_kind env 4 = SockKind.stream) ∨
      (env.sd_listen_fds = 2 ∧ fd_kind env 3 = SockKind.dgram ∧
        fd_kind env 4 = SockKind.dgram) ∨
      (∃ fd, 3 ≤ fd ∧ fd < 3 + env.sd_listen_fds ∧
        (fd_kind env fd = SockKind.neither ∨ fd_kind env fd = SockKind.error))) :
    (main env ws).1 = Outcome.exit EXIT_FAILURE ∧
    ∀ c ∈ (main env ws).2, c.makes_socket = false ∧ c.is_wait = false := by
  have hr : (startup env).1 = Outcome.exit EXIT_FAILURE ∧
      ∀ c ∈ (startup env).2, c.makes_socket = false ∧ c.is_wait = false := by
    apply startup_reject
    by_cases h2 : 2 < env.sd_listen_fds
    · exact Or.inl h2
    · right
      rcases h with h | h
      · exact absurd h h2
      · apply classify_fds_reject env _ (by omega) h
        rcases h with ⟨hh, -⟩ | ⟨hh, -⟩ | ⟨fd, hlo, hhi, -⟩ <;> omega
  rw [main_of_startup_exit env ws _ hr.1]
  exact hr

/-- Two inherited listening stream sockets: start-up fails before any socket
call. -/
theorem activation_rejected_witness :
    (main two_streams_env sigterm_run).1 = Outcome.exit EXIT_FAILURE ∧
    ∀ c ∈ (main two_streams_env sigterm_run).2, c.makes_socket = false ∧ c.is_wait = false :=
  activation_rejected two_streams_env sigterm_run (Or.inr (Or.inl (by decide)))

/-- C9: for every 64-bit value `W` that `strtoull` reads from `WATCHDOG_USEC`,
the `struct itimerspec` passed to `timerfd_settime` has `it_value` equal to
`it_interval`, and its `(tv_sec, tv_nsec)` is the normalized form of
`floor(W / 2)` microseconds: `tv_sec * 10^9 + tv_nsec = floor(W / 2) * 1000` with
`0 <= tv_nsec < 10^9` (and `tv_sec >= 0`); the conversions to `long` lose
nothing. Every `timerfd_settime` call of start-up carries exactly this value. -/
theorem watchdog_half_interval (env : BootEnv) (str : List Char) (W : Nat)
    (henv : env.watchdog_usec = some str) (hW : strtoull str = W) :
    W < 2 ^ 64 ∧
    (watchdog_its W).it_value = (watchdog_its W).it_interval ∧
    (watchdog_its W).it_interval.tv_sec * 1000000000 + (watchdog_its W).it_interval.tv_nsec
      = ((W / 2 : Nat) : Int) * 1000 ∧
    0 ≤ (watchdog_its W).it_interval.tv_sec ∧
    0 ≤ (watchdog_its W).it_interval.tv_nsec ∧
    (watchdog_its W).it_interval.tv_nsec < 1000000000 ∧
    ∀ fd its, Call.timerfd_settime fd its ∈ (startup env).2 → its = watchdog_its W := by
  have hlt : W < 2 ^ 64 := hW ▸ strtoull_lt str
  obtain ⟨f1, f2, f3, f4, f5⟩ := watchdog_its_facts W hlt
  refine ⟨hlt, f1, f2, f3, f4, f5, ?_⟩
  intro fd its hmem
  obtain ⟨str', hs', hits⟩ := startup_calls env _ hmem
  rw [henv] at hs'
  cases hs'
  rw [hits, hW]

/-- With `WATCHDOG_USEC=3000001` the timer is armed with 1.5 seconds. -/
theorem watchdog_half_interval_witness :
    Call.timerfd_settime 7 ⟨⟨1, 500000000⟩, ⟨1, 500000000⟩⟩ ∈ (startup watchdog_env).2 ∧
    watchdog_its 3000001 = ⟨⟨1, 500000000⟩, ⟨1, 500000000⟩⟩ ∧
    (watchdog_its 3000001).it_interval.tv_sec * 1000000000 +
      (watchdog_its 3000001).it_interval.tv_nsec = ((3000001 / 2 : Nat) : Int) * 1000 :=
  ⟨by decide, by decide,
    (watchdog_half_interval watchdog_env "3000001".toList 3000001 rfl (by decide)).2.2.1⟩

/-- C5 as stated fails on the file whose only line is `Backlog=5abc`: `load_conf`
returns 0 and sets the backlog to 5, although the value `5abc` is not a
positive decimal integer, so the file is not one the stated format accepts. -/
theorem load_conf_takes_trailing_text :
    load_conf { fopen_ok := true, lines := ["Backlog=5abc".toList ++ [Char.ofNat 10]],
                read_ok := true } 10 = (0, 5) ∧
    spec_accepts ["Backlog=5abc".toList ++ [Char.ofNat 10]] = false ∧
    ¬ ((load_conf { fopen_ok := true, lines := ["Backlog=5abc".toList ++ [Char.ofNat 10]],
                    read_ok := true } 10).1 = 0 ↔
        spec_accepts ["Backlog=5abc".toList ++ [Char.ofNat 10]] = true) := by
  decide

/-- The format as the specification words it is not empty: it accepts the file
with the single line `Backlog=5`, which `load_conf` loads as well. -/
theorem spec_accepts_sample :
    spec_accepts sample_conf.lines = true ∧ load_conf sample_conf 10 = (0, 5) := by
  decide

/-- C5, amended: for a configuration file that can be opened and read to its
end, and in which no `=` is directly preceded by white space, `load_conf`
returns 0 if and only if every line that is not blank consists of optional
leading white space, the key `Backlog` directly followed by `=`, and a value
from which `atoi` reads a positive number (so text after the digits, as in
`Backlog=5abc`, is ignored); in every other case it returns -1. When it returns
0 and such a line exists, the backlog is what `atoi` reads from the last one. -/
theorem load_conf_accepts_iff (f : ConfFile) (backlog : Int) (hopen : f.fopen_ok = true)
    (hread : f.read_ok = true) (_htight : ∀ l ∈ f.lines, key_tight l = true) :
    ((load_conf f backlog).1 = 0 ↔ ∀ l ∈ f.lines, blank l = true ∨ loader_line l) ∧
    ((load_conf f backlog).1 ≠ 0 → (load_conf f backlog).1 = -1) ∧
    (∀ pre ws v post, f.lines = pre ++ (ws ++ ("Backlog=".toList ++ v)) :: post →
      (∀ c ∈ ws, isspace c = true) → (∀ l ∈ post, blank l = true) →
      (load_conf f backlog).1 = 0 → (load_conf f backlog).2 = atoi v) := by
  rw [load_conf_ret f backlog hopen hread]
  refine ⟨?_, ?_, ?_⟩
  · rw [← load_conf_loop_accepts f.lines backlog]
    by_cases h : (load_conf_loop f.lines backlog).1 = true <;> simp [h]
  · by_cases h : (load_conf_loop f.lines backlog).1 = true <;> simp [h]
  · intro pre ws v post hl hws hpost h0
    have h1 : (load_conf_loop f.lines backlog).1 = true := by
      by_contra hc
      simp [hc] at h0
    simp only
    rw [hl] at h1 ⊢
    exact load_conf_loop_last pre ws v post backlog hws hpost h1

/-- The file with the single line `Backlog=5` is loaded with backlog 5. -/
theorem load_conf_accepts_iff_witness :
    (load_conf sample_conf 10).1 = 0 ∧ (load_conf sample_conf 10).2 = 5 ∧
    ((load_conf sample_conf 10).1 = 0 ↔ ∀ l ∈ sample_conf.lines, blank l = true ∨ loader_line l) :=
  ⟨by decide, by decide,
    (load_conf_accepts_iff sample_conf 10 rfl rfl (by decide)).1⟩

/-- C2: a wake-up on the datagram descriptor (which is none of the signal, timer
and listening descriptors) never ends the loop and leaves the connection table,
the heap and every registration as they were, whatever `sendto` returns. If
`recvfrom` returns `n > 0` (at most 4096) the iteration makes exactly one
`sendto`, whose payload is the `n` bytes received and whose destination is the
source address and address length `recvfrom` stored; if `recvfrom` returns a
value `<= 0` it makes none. -/
theorem datagram_echo (s : State) (w : Wake) (hok : WakeOK s w) (hn : 0 < w.n_fds)
    (hfd : w.fd = s.dgram_fd) (h1 : s.dgram_fd ≠ s.signal_fd) (h2 : s.dgram_fd ≠ s.timer_fd)
    (h3 : s.dgram_fd ≠ s.listen_fd) :
    ∃ s', (loop_body s w).1 = Outcome.cont s' ∧
      s'.iob = s.iob ∧ s'.heap = s.heap ∧ s'.brk = s.brk ∧ s'.reg = s.reg ∧
      s'.dgram_fd = s.dgram_fd ∧ s'.listen_fd = s.listen_fd ∧
      s'.signal_fd = s.signal_fd ∧ s'.timer_fd = s.timer_fd ∧
      w.recv_ret ≤ 4096 ∧
      sent (loop_body s w).2 =
        if 0 < w.recv_ret then [(w.recv_data, w.recv_addr, w.recv_addrlen)] else [] := by
  obtain ⟨-, -, -, ⟨hle, hlen⟩, -⟩ := hok
  have hn' : ¬ w.n_fds ≤ 0 := by omega
  have e1 : ¬ w.fd = s.signal_fd := by rw [hfd]; exact h1
  have e2 : ¬ w.fd = s.timer_fd := by rw [hfd]; exact h2
  have e3 : ¬ w.fd = s.listen_fd := by rw [hfd]; exact h3
  have hd : dispatch s w =
      if w.recv_ret ≤ 0 then (Outcome.cont s, [Call.recvfrom s.dgram_fd w.recv_ret])
      else
        (Outcome.cont { s with buf := fill s.buf w.recv_data w.recv_ret.toNat },
         [Call.recvfrom s.dgram_fd w.recv_ret] ++
          [Call.sendto s.dgram_fd ((fill s.buf w.recv_data w.recv_ret.toNat).take w.recv_ret.toNat)
            w.recv_addr w.recv_addrlen]) := by
    unfold dispatch
    rw [if_neg e1, if_neg e2, if_neg e3, if_pos hfd]
  unfold loop_body
  rw [if_neg hn', hd]
  by_cases hr : w.recv_ret ≤ 0
  · have hr' : ¬ 0 < w.recv_ret := by omega
    rw [if_pos hr, if_neg hr']
    exact ⟨s, rfl, rfl, rfl, rfl, rfl, rfl, rfl, rfl, rfl, hle, rfl⟩
  · have hr' : 0 < w.recv_ret := by omega
    have hl := hlen hr'
    have htake : List.take w.recv_ret.toNat (fill s.buf w.recv_data w.recv_ret.toNat)
        = w.recv_data := by
      unfold fill
      rw [← hl, List.take_length, List.take_left']
      rfl
    rw [if_neg hr, if_pos hr', htake]
    exact ⟨_, rfl, rfl, rfl, rfl, rfl, rfl, rfl, rfl, rfl, hle, rfl⟩

/-- The datagram `x` is sent back to its 28-byte source address, although
`sendto` fails. -/
theorem datagram_echo_witness :
    ∃ s', (loop_body sample_state datagram_wake).1 = Outcome.cont s' ∧
      s'.iob = sample_state.iob ∧ s'.reg = sample_state.reg ∧
      sent (loop_body sample_state datagram_wake).2 = [([120], List.replicate 28 1, 28)] := by
  obtain ⟨s', h1, h2, -, -, h3, -, -, -, -, -, h4⟩ :=
    datagram_echo sample_state datagram_wake (by decide) (by decide) rfl (by decide)
      (by decide) (by decide)
  exact ⟨s', h1, h2, h3, h4⟩

/-- A report for a connection descriptor whose `ev.events` is neither exactly
`EPOLLIN` nor exactly `EPOLLOUT` matches no branch of the loop: the iteration
makes no call and changes nothing. -/
theorem unmatched_events_ignored (s : State) (w : Wake) (hn : 0 < w.n_fds)
    (h1 : w.fd ≠ s.signal_fd) (h2 : w.fd ≠ s.timer_fd) (h3 : w.fd ≠ s.listen_fd)
    (h4 : w.fd ≠ s.dgram_fd) (e1 : w.events ≠ EPOLLIN) (e2 : w.events ≠ EPOLLOUT) :
    loop_body s w = (Outcome.cont s, [Call.epoll_wait w.n_fds]) := by
  have hn' : ¬ w.n_fds ≤ 0 := by omega
  unfold loop_body dispatch
  rw [if_neg hn', if_neg h1, if_neg h2, if_neg h3, if_neg h4, if_neg e1, if_neg e2]

/-- C10, the code at the failing input: descriptor 7 is a connection registered
for `EPOLLIN`, and the kernel reports it with `EPOLLIN | EPOLLHUP` (a report the
kernel contract allows). The iteration makes no call after `epoll_wait`: it
does not read from the connection, and the connection stays registered as
before, so the same report is delivered again. -/
theorem hangup_report_not_served :
    WakeOK reading_state hangup_wake ∧
    reading_state.reg 7 = some EPOLLIN ∧
    hangup_wake.events = EPOLLIN ||| EPOLLHUP ∧
    (loop_body reading_state hangup_wake).2 = [Call.epoll_wait 1] ∧
    (∃ s', (loop_body reading_state hangup_wake).1 = Outcome.cont s' ∧
      s'.reg 7 = some EPOLLIN ∧ s'.iob = reading_state.iob) := by
  refine ⟨by decide, by decide, by decide, by decide, reading_state, rfl, by decide, rfl⟩

/-! ## Main results: the connection table -/

theorem reach_loop (ws : List Wake) (s : State) (log : List Call) (h : Reach s log)
    (hok : wakes_ok s ws = true) (s' : State) (hs : (loop s ws).1 = Outcome.cont s') :
    Reach s' (log ++ (loop s ws).2) := by
  induction ws generalizing s log with
  | nil =>
    simp only [loop, Outcome.cont.injEq] at hs
    subst hs
    simpa [loop] using h
  | cons w ws ih =>
    unfold wakes_ok at hok
    unfold loop at hs ⊢
    rcases hlb : loop_body s w with ⟨o, l⟩
    simp only [hlb, Bool.and_eq_true, decide_eq_true_eq] at hok hs ⊢
    cases o with
    | cont s1 =>
      simp only at hok hs ⊢
      have h1 : Reach s1 (log ++ l) := Reach.step s log w s1 l h hok.1 hlb
      have := ih s1 (log ++ l) h1 hok.2 hs
      rw [List.append_assoc] at this
      exact this
    | exit st => simp at hs
    | fault => simp at hs

theorem main_reach (env : BootEnv) (ws : List Wake) (s0 : State) (l0 : List Call)
    (hboot : startup env = (Outcome.cont s0, l0)) (hok : wakes_ok s0 ws = true) (s : State)
    (hs : (loop s0 ws).1 = Outcome.cont s) : Reach s (main env ws).2 := by
  have h := reach_loop ws s0 l0 (Reach.boot env s0 l0 hboot) hok s hs
  unfold main
  rw [hboot]
  exact h

/-- C1: in every state the loop can reach, for every descriptor that is on the
interest list (an accepted connection that has not been closed), the bytes
written to it since it was accepted, followed by the residual bytes held in its
slot `iob[fd]` (`len` bytes at `data`), are exactly the bytes read from it since
it was accepted, in the same order. In particular, when the descriptor is
registered for reading again (its buffer has drained) the bytes written equal
the bytes read. Reads return 1 to 4096 bytes or fail, writes may be full,
partial or fail. -/
theorem stream_echo_integrity (s : State) (log : List Call) (h : Reach s log) (fd : Int)
    (hopen : s.reg fd ≠ none) :
    tx fd log ++ residual s fd = rx fd log ∧
    (s.reg fd = some EPOLLIN → tx fd log = rx fd log) := by
  obtain ⟨hinv, hecho⟩ := reach_good s log h
  refine ⟨hecho fd hopen, ?_⟩
  intro hin
  have := hecho fd hopen
  rw [residual_idle s fd hinv (by rw [hin]; simp [EPOLLIN, EPOLLOUT])] at this
  simpa using this

/-- After `short_run`, connection 7 has read `hello`, written `he` and holds
`llo` in its slot. -/
theorem stream_echo_integrity_witness :
    tx 7 (main sample_env short_run).2 ++ residual short_state 7
      = rx 7 (main sample_env short_run).2 ∧
    tx 7 (main sample_env short_run).2 = [104, 101] ∧
    residual short_state 7 = [108, 108, 111] ∧
    rx 7 (main sample_env short_run).2 = [104, 101, 108, 108, 111] :=
  ⟨(stream_echo_integrity short_state (main sample_env short_run).2
      (main_reach sample_env short_run sample_state _ rfl (by decide) short_state rfl)
      7 (by decide)).1,
    by decide, by decide, by decide⟩

theorem slot_of_frame (s s' : State) (fd0 fd : Int) (hf : Frame s s' fd0) (h0 : 0 ≤ fd0)
    (hne : fd ≠ fd0) :
    slot_of s' fd = slot_of s fd ∨ (slot_of s fd = none ∧ slot_of s' fd = some iobuf.zero) := by
  unfold slot_of
  by_cases hneg : fd < 0
  · simp [hneg]
  · simp only [hneg, if_false]
    have hj : fd.toNat ≠ fd0.toNat := by omega
    by_cases hlt : fd.toNat < s.iob.length
    · left
      exact hf.slot_eq _ hj hlt
    · have hnone : s.iob[fd.toNat]? = none := List.getElem?_eq_none (by omega)
      cases hs' : s'.iob[fd.toNat]? with
      | none => left; rw [hnone]
      | some slot =>
        right
        rw [hf.fresh_zero _ slot hj (by omega) hs']
        exact ⟨hnone, rfl⟩

/-- C6: in every state the loop can reach, an iteration that handles the
listening descriptor with a failing `accept`, or that handles a connection
descriptor (any descriptor other than the signal, timer, listening and datagram
descriptors), whatever its calls return (`read` negative or zero, `write`
failing, the table not growing, `malloc` failing, `epoll_ctl` failing), does not
end the process: the loop goes on. For every other descriptor the registration
is unchanged, the slot `(head, data, len)` is unchanged (a descriptor beyond the
old end of the table may now have a zeroed slot, where it had none), and its
live buffer and residual bytes are unchanged. -/
theorem failure_contained (s : State) (log : List Call) (h : Reach s log) (w : Wake)
    (hok : WakeOK s w) (hn : 0 < w.n_fds) (h1 : w.fd ≠ s.signal_fd) (h2 : w.fd ≠ s.timer_fd)
    (h4 : w.fd ≠ s.dgram_fd) (hacc : w.fd = s.listen_fd → w.accept_ret < 0) :
    ∃ s', (loop_body s w).1 = Outcome.cont s' ∧
      ∀ fd, fd ≠ w.fd →
        s'.reg fd = s.reg fd ∧
        (slot_of s' fd = slot_of s fd ∨
          (slot_of s fd = none ∧ slot_of s' fd = some iobuf.zero)) ∧
        live_buffer s' fd = live_buffer s fd ∧
        residual s' fd = residual s fd := by
  obtain ⟨hinv, -⟩ := reach_good s log h
  have hn' : ¬ w.n_fds ≤ 0 := by omega
  unfold loop_body
  rw [if_neg hn']
  by_cases h3 : w.fd = s.listen_fd
  · have ha := hacc h3
    refine ⟨s, ?_, ?_⟩
    · unfold dispatch
      rw [if_neg h1, if_neg h2, if_pos h3]
      dsimp only
      rw [if_pos ha]
    · intro fd _
      exact ⟨rfl, Or.inl rfl, rfl, rfl⟩
  · obtain ⟨⟨s', e1, hinv', hf, -, -⟩, -⟩ := dispatch_conn s w hinv hok hn h1 h2 h3 h4
    obtain ⟨hopen, -, -⟩ := wake_reg s w hinv hok hn
    have hw0 : 0 ≤ w.fd := by
      cases hm : s.reg w.fd with
      | none => exact absurd hm hopen
      | some m => exact (hinv.reg_ok _ m hm).1
    refine ⟨s', e1, ?_⟩
    intro fd hne
    have hr := residual_frame s s' w.fd fd hinv hinv' hf hw0 hne
    exact ⟨hf.reg_eq fd hne, slot_of_frame s s' w.fd fd hf hw0 hne, hr.2, hr.1⟩

/-- After `short_run`, the end of file on connection 8 leaves connection 7 and
its buffer alone. -/
theorem failure_contained_witness :
    ∃ s', (loop_body short_state eof8_wake).1 = Outcome.cont s' ∧
      ∀ fd, fd ≠ eof8_wake.fd →
        s'.reg fd = short_state.reg fd ∧
        (slot_of s' fd = slot_of short_state fd ∨
          (slot_of short_state fd = none ∧ slot_of s' fd = some iobuf.zero)) ∧
        live_buffer s' fd = live_buffer short_state fd ∧
        residual s' fd = residual short_state fd :=
  failure_contained short_state (main sample_env short_run).2
    (main_reach sample_env short_run sample_state _ rfl (by decide) short_state rfl)
    eof8_wake (by decide) (by decide) (by decide) (by decide) (by decide) (by decide)

/-- C7: in every state the loop can reach and for every descriptor `fd` on the
interest list: `fd` is registered for exactly one of `EPOLLIN` and `EPOLLOUT`;
it is registered for `EPOLLOUT` if and only if `fd < iob_size` and slot `iob[fd]`
holds a live buffer; in that case `head` is the start of the buffer, `data`
points into it, `1 <= len <= 4096` and `(data - head) + len` is the length of
the buffer as it was allocated; if `fd` is registered for `EPOLLIN` its slot
holds no live buffer. Consequently an iteration under the kernel contract never
performs an invalid memory operation, and whenever a descriptor is reported
with `ev.events == EPOLLOUT` the access `iob[ev.data.fd]` is inside the table. -/
theorem table_invariant (s : State) (log : List Call) (h : Reach s log) (fd : Int)
    (hopen : s.reg fd ≠ none) :
    (s.reg fd = some EPOLLIN ∨ s.reg fd = some EPOLLOUT) ∧
    (s.reg fd = some EPOLLOUT ↔
      fd.toNat < s.iob.length ∧ (live_buffer s fd).isSome = true) ∧
    (s.reg fd = some EPOLLOUT →
      ∃ slot b, slot_of s fd = some slot ∧ live_buffer s fd = some b ∧
        slot.head.off = 0 ∧ slot.data.blk = slot.head.blk ∧
        1 ≤ slot.len ∧ slot.len ≤ 4096 ∧
        (slot.data.off - slot.head.off) + slot.len = b.length) ∧
    (s.reg fd = some EPOLLIN → live_buffer s fd = none) ∧
    (∀ w, WakeOK s w → (loop_body s w).1 ≠ Outcome.fault) ∧
    (∀ w, WakeOK s w → 0 < w.n_fds → w.events = EPOLLOUT → w.fd.toNat < s.iob.length) := by
  obtain ⟨hinv, -⟩ := reach_good s log h
  have hwr : ∀ x, s.reg x = some EPOLLOUT →
      ∃ slot b, slot_of s x = some slot ∧ live_buffer s x = some b ∧
        slot.head.off = 0 ∧ slot.data.blk = slot.head.blk ∧
        1 ≤ slot.len ∧ slot.len ≤ 4096 ∧
        (slot.data.off - slot.head.off) + slot.len = b.length ∧ x.toNat < s.iob.length := by
    intro x hx
    obtain ⟨slot, b, g1, g2, g3, g4, g5, g6, g7⟩ := hinv.writing x hx
    have hpos := (hinv.reg_ok _ _ hx).1
    have hneg : ¬ x < 0 := by omega
    have hlt : x.toNat < s.iob.length := by
      by_contra hc
      rw [List.getElem?_eq_none (by omega)] at g1
      cases g1
    refine ⟨slot, b, ?_, ?_, g3, g4, g5, g6, ?_, hlt⟩
    · unfold slot_of
      rw [if_neg hneg]; exact g1
    · unfold live_buffer slot_of
      rw [if_neg hneg, g1]; exact g2
    · rw [g3]; simpa using g7
  refine ⟨?_, ⟨?_, ?_⟩, ?_, ?_, ?_, ?_⟩
  · cases hm : s.reg fd with
    | none => exact absurd hm hopen
    | some m =>
      rcases (hinv.reg_ok _ m hm).2 with rfl | rfl
      · exact Or.inl rfl
      · exact Or.inr rfl
  · intro hout
    obtain ⟨slot, b, -, g2, -, -, -, -, -, hlt⟩ := hwr fd hout
    exact ⟨hlt, by rw [g2]; rfl⟩
  · rintro ⟨-, hlive⟩
    by_contra hc
    rw [live_buffer_idle s fd hinv hc] at hlive
    simp at hlive
  · intro hout
    obtain ⟨slot, b, g1, g2, g3, g4, g5, g6, g7, -⟩ := hwr fd hout
    exact ⟨slot, b, g1, g2, g3, g4, g5, g6, g7⟩
  · intro hin
    exact live_buffer_idle s fd hinv (by rw [hin]; simp [EPOLLIN, EPOLLOUT])
  · intro w hok
    exact step_no_fault s w hinv hok
  · intro w hok hn hev
    have hout := (wake_reg s w hinv hok hn).2.2 hev
    obtain ⟨slot, b, -, -, -, -, -, -, -, hlt⟩ := hwr w.fd hout
    exact hlt

/-- After `short_run`, connection 7 is writing and owns the buffer `llo`;
connection 8 is reading and owns none. -/
theorem table_invariant_witness :
    short_state.reg 7 = some EPOLLOUT ∧ live_buffer short_state 7 = some [108, 108, 111] ∧
    short_state.reg 8 = some EPOLLIN ∧
    (short_state.reg 7 = some EPOLLOUT ↔
      (7 : Int).toNat < short_state.iob.length ∧
        (live_buffer short_state 7).isSome = true) ∧
    (short_state.reg 8 = some EPOLLIN → live_buffer short_state 8 = none) :=
  ⟨by decide, by decide, by decide,
    (table_invariant short_state (main sample_env short_run).2
      (main_reach sample_env short_run sample_state _ rfl (by decide) short_state rfl)
      7 (by decide)).2.1,
    (table_invariant short_state (main sample_env short_run).2
      (main_reach sample_env short_run sample_state _ rfl (by decide) short_state rfl)
      8 (by decide)).2.2.2.1⟩

theorem close_conn (s : State) (w : Wake) (s' : State) (l : List Call) (hinv : Inv s)
    (hok : WakeOK s w) (h : loop_body s w = (Outcome.cont s', l)) (fd : Int)
    (hc : Call.close fd ∈ l) : s'.reg fd = none := by
  rcases loop_body_cont s w s' l h with ⟨-, rfl, rfl⟩ | ⟨hn, l2, rfl, hd⟩
  · simp at hc
  · simp only [List.mem_cons, reduceCtorEq, false_or] at hc
    by_cases hsp : w.fd = s.signal_fd ∨ w.fd = s.timer_fd ∨ w.fd = s.listen_fd ∨
        w.fd = s.dgram_fd
    · rcases dispatch_special s w s' l2 hd hsp with ⟨hq, -⟩ | ⟨-, -, rfl, -⟩
      · exact absurd (hq _ hc) (by simp [Call.quiet])
      · simp at hc
    · have h1 : w.fd ≠ s.signal_fd := fun e => hsp (Or.inl e)
      have h2 : w.fd ≠ s.timer_fd := fun e => hsp (Or.inr (Or.inl e))
      have h3 : w.fd ≠ s.listen_fd := fun e => hsp (Or.inr (Or.inr (Or.inl e)))
      have h4 : w.fd ≠ s.dgram_fd := fun e => hsp (Or.inr (Or.inr (Or.inr e)))
      obtain ⟨⟨s'', e1, -, -, hcl, -⟩, hcalls⟩ := dispatch_conn s w hinv hok hn h1 h2 h3 h4
      rw [hd] at e1 hcalls hcl
      simp only [Outcome.cont.injEq] at e1
      subst e1
      have : fd = w.fd := hcalls _ hc
      subst this
      exact hcl hc

/-- C8: in every state the loop can reach, an iteration under the kernel
contract never frees a pointer that is not a live block (no double free), and
if the loop goes on, every descriptor the iteration closed is off the interest
list and its slot `iob[fd]` owns no live buffer at that moment. More generally,
in the state the iteration leads to, every descriptor that is not registered for
`EPOLLOUT` (a closed one, or one that `accept` has just returned again) has no
live buffer in its slot, and every live block is the buffer of a descriptor
registered for `EPOLLOUT`, so nothing a closed connection owned stays
allocated. -/
theorem buffer_released_on_close (s : State) (log : List Call) (h : Reach s log) (w : Wake)
    (hok : WakeOK s w) :
    (loop_body s w).1 ≠ Outcome.fault ∧
    ∀ s' l, loop_body s w = (Outcome.cont s', l) →
      (∀ fd, Call.close fd ∈ l → s'.reg fd = none ∧ live_buffer s' fd = none) ∧
      (∀ fd, s'.reg fd ≠ some EPOLLOUT → live_buffer s' fd = none) ∧
      (∀ b, s'.heap b ≠ none →
        ∃ fd slot, s'.reg fd = some EPOLLOUT ∧ slot_of s' fd = some slot ∧
          slot.head.blk = b) := by
  obtain ⟨hinv, hecho⟩ := reach_good s log h
  refine ⟨step_no_fault s w hinv hok, ?_⟩
  intro s' l hstep
  obtain ⟨hinv', -⟩ := step_good s w s' l log hinv hecho hok hstep
  refine ⟨?_, ?_, ?_⟩
  · intro fd hc
    have hr := close_conn s w s' l hinv hok hstep fd hc
    exact ⟨hr, live_buffer_idle s' fd hinv' (by rw [hr]; simp)⟩
  · intro fd hfd
    exact live_buffer_idle s' fd hinv' hfd
  · intro b hb
    obtain ⟨i, slot, hi, hbl⟩ := hinv'.owned b hb
    refine ⟨(i : Int), slot, ?_, ?_, hbl⟩
    · by_contra hc
      have := (hinv'.idle i slot hc hi).1
      rw [hbl] at this
      exact hb this
    · unfold slot_of
      have : ¬ ((i : Int) < 0) := by omega
      rw [if_neg this]
      simpa using hi

/-- After `short_run`, a write on connection 7 that fails with `EPIPE` closes it
and releases its buffer. -/
theorem buffer_released_on_close_witness :
    (live_buffer short_state 7).isSome = true ∧
    Call.close 7 ∈ (loop_body short_state epipe7_wake).2 ∧
    ∃ s', (loop_body short_state epipe7_wake).1 = Outcome.cont s' ∧
      s'.reg 7 = none ∧ live_buffer s' 7 = none :=
  ⟨by decide, by decide, state_after short_state [epipe7_wake], rfl,
    ((buffer_released_on_close short_state (main sample_env short_run).2
      (main_reach sample_env short_run sample_state _ rfl (by decide) short_state rfl)
      epipe7_wake (by decide)).2 (state_after short_state [epipe7_wake])
        (loop_body short_state epipe7_wake).2 rfl).1 7 (by decide)⟩

end SystemdEcho
